import Mathlib

/-!
Verification of the PPP data-ingestion and caching core (`src/services/ppp-data.ts`).

The TypeScript source is shallowly embedded:
* spreadsheet cells become the inductive `Cell` (JS strings, finite numbers, `NaN`,
  and `undefined`/blank cells);
* JS string coercion/trimming/lowercasing are re-implemented structurally over
  character lists (`jsString`, `jsTrim`, `lowerStr`); numeric-to-string coercion is
  exact for integral values (the only case the source relies on);
* the global mutable module state of `ppp-data.ts` becomes the structure `SrvState`,
  and each exported async function becomes an explicit state-passing function whose
  possible `fetch`/parse outcome is a parameter (`Except Unit ParseOutput`);
* the promise single-flight machinery is modelled by `fetchEntry`, the synchronous
  prefix of `fetchAndCachePPPData` (lines 66-84 of the source contain no `await`
  between the cache check and the assignment of `fetchPromise`, so that prefix is
  atomic in the JS event loop); promises are identified by numeric ids, and two
  callers holding the same id observe the same settled outcome by definition of a
  JS promise;
* `localeCompare`-based sorting is modelled by the total lexicographic comparison
  `strLe` on code points, and `getCurrencyData` enrichment by a parameter
  `sym : String → Option String`.
-/

/-- A spreadsheet cell as seen by the JS code after `sheet_to_json`:
a string, a finite number (modelled as a rational), `NaN`, or a
blank/missing cell (JS `undefined`). -/
inductive Cell where
  | str (s : String)
  | num (q : ℚ)
  | nan
  | blank
deriving DecidableEq

/-- Whitespace recognised by trimming (space, tab, LF, CR). -/
def isWs (c : Char) : Bool := c.toNat = 32 || c.toNat = 9 || c.toNat = 10 || c.toNat = 13

/-- Model of JS `String.prototype.trim`. -/
def jsTrim (s : String) : String :=
  ⟨((s.data.dropWhile isWs).reverse.dropWhile isWs).reverse⟩

/-- ASCII lowercasing of one character (model of `toLowerCase` on the ASCII
names appearing in the workbook). -/
def charToLower (c : Char) : Char :=
  if 65 ≤ c.toNat && c.toNat ≤ 90 then Char.ofNat (c.toNat + 32) else c

/-- Model of JS `String.prototype.toLowerCase`. -/
def lowerStr (s : String) : String := ⟨s.data.map charToLower⟩

/-- ASCII digit test (JS regex `\d`). -/
def isDigitCh (c : Char) : Bool := 48 ≤ c.toNat && c.toNat ≤ 57

/-- Decimal value of an all-digit string (model of `parseInt(h, 10)` on a
string already known to match `^\d\x7b4\x7d$`). -/
def natOfDigits (s : String) : Nat := s.data.foldl (fun n c => n * 10 + (c.toNat - 48)) 0

/-- Decimal digit to character. -/
def digitChar (n : Nat) : Char := Char.ofNat (48 + n)

/-- Decimal rendering of a natural number (fuelled, structurally recursive). -/
def natToChars : Nat → Nat → List Char
  | 0, _ => []
  | fuel + 1, n => if n < 10 then [digitChar n] else natToChars fuel (n / 10) ++ [digitChar (n % 10)]

/-- Decimal rendering of a natural number. -/
def natToStr (n : Nat) : String := ⟨natToChars (n + 1) n⟩

/-- Decimal rendering of an integer. -/
def intToStr : Int → String
  | .ofNat n => natToStr n
  | .negSucc n => "-" ++ natToStr (n + 1)

/-- Model of JS `String(cell)`: strings unchanged, numbers rendered in decimal
(exact for the integral values the source string-compares; non-integral values
never match any string test in the source), `NaN` and `undefined` as their JS
renderings. -/
def jsString : Cell → String
  | .str s => s
  | .num q => if q.den = 1 then intToStr q.num else intToStr q.num ++ "." ++ natToStr q.den
  | .nan => "NaN"
  | .blank => "undefined"

/-- Infix (substring) test over character lists. -/
def hasInfixChars (needle : List Char) : List Char → Bool
  | [] => needle.isEmpty
  | c :: rest => needle.isPrefixOf (c :: rest) || hasInfixChars needle rest

/-- Code-point comparison of character lists: total lexicographic order used to
model `localeCompare`-based sorting. -/
def strLeAux : List Char → List Char → Bool
  | [], _ => true
  | _ :: _, [] => false
  | a :: as, b :: bs =>
    if a.toNat < b.toNat then true
    else if b.toNat < a.toNat then false
    else strLeAux as bs

/-- Total string comparison used to model `a.name.localeCompare(b.name)`. -/
def strLe (a b : String) : Bool := strLeAux a.data b.data

/-- Mirror of the `PPPData` interface of the source. -/
structure PPPData where
  countryCode : String
  pppConversionFactor : ℚ
  year : Nat
deriving DecidableEq

/-- Mirror of the `CountryInfo` interface of the source. -/
structure CountryInfo where
  name : String
  code : String
  currencySymbol : Option String := none
deriving DecidableEq

/-- Mirror of the `HistoricalDataPoint` interface of the source. -/
structure HistoricalDataPoint where
  year : Nat
  pppConversionFactor : ℚ
deriving DecidableEq

/-- The `potentialSheetNames` array of the source (line 98). -/
def potentialSheetNames : List String := ["Data", "Sheet1", "API_PA.NUS.PPP_DS2_en_excel_v2"]

/-- Model of `name.toLowerCase().includes(chr(39)metadata(chr39))` (source line 111). -/
def isMetadataName (s : String) : Bool := hasInfixChars "metadata".data (lowerStr s).data

/-- Fallback sheet choice, source lines 109-119: the first sheet if its name
is not metadata-like, else the second sheet when present. -/
def fallbackSheetName : List String → Option String
  | [] => none
  | first :: rest =>
    if !isMetadataName first then some first
    else
      match rest with
      | [] => none
      | second :: _ => some second

/-- Sheet-name selection, source lines 96-124: first matching entry of
`potentialSheetNames`; else the fallback choice; else no sheet (an error is
thrown). -/
def selectSheetName (sheetNames : List String) : Option String :=
  match potentialSheetNames.find? (fun n => sheetNames.contains n) with
  | some n => some n
  | none => fallbackSheetName sheetNames

/-- Parse failures thrown by `fetchAndCachePPPData` before any row is processed. -/
inductive ParseErr where
  | noDataSheet
  | noHeaderRow
  | missingColumns
deriving DecidableEq

/-- Scan of the first five rows for a `Last Updated Date` row, source
lines 131-138: the first such row yields the trimmed string of its second
column. -/
def findTimestamp (rows : List (List Cell)) : Option String :=
  (rows.take 5).findSome? fun row =>
    match row.getD 0 .blank with
    | .str s =>
        if jsTrim s == "Last Updated Date" && decide (1 < row.length) then
          some (jsTrim (jsString (row.getD 1 .blank)))
        else none
    | _ => none

/-- Header-row test of source line 142: the first cell, coerced to string and
trimmed, equals the literal `Country Name`. -/
def isHeaderRow (row : List Cell) : Bool := jsTrim (jsString (row.getD 0 .blank)) == "Country Name"

/-- Year-column test of source line 157: the trimmed header is exactly four
ASCII digits and its decimal value is at least 1990. -/
def isYearHeader (h : String) : Bool :=
  h.data.length == 4 && h.data.all isDigitCh && decide (1990 ≤ natOfDigits h)

/-- Trimmed string headers of the header row (source line 148). -/
def headersOf (rows : List (List Cell)) (hIdx : Nat) : List String :=
  (rows.getD hIdx []).map (fun c => jsTrim (jsString c))

/-- Year columns as `(year, column index)` pairs in header order (source
lines 155-157). -/
def yearColsOf (headers : List String) : List (Nat × Nat) :=
  (headers.enum.filter (fun p => isYearHeader p.2)).map (fun p => (natOfDigits p.2, p.1))

/-- The `yearIndicesMap` of source line 169: a JS `Map` built from the year
columns, later duplicate keys overriding earlier ones. -/
def yearIdxFun (cols : List (Nat × Nat)) : Nat → Option Nat :=
  cols.foldl (fun f yc => fun y => if y = yc.1 then some yc.2 else f y) (fun _ => none)

/-- Everything the row loop of `fetchAndCachePPPData` needs from the sheet:
column indices, year columns, data rows (rows after the header row), and the
scraped timestamp. -/
structure Ctx where
  nameIdx : Nat
  codeIdx : Nat
  years : List Nat
  yearIdx : Nat → Option Nat
  dataRows : List (List Cell)
  localTimestamp : Option String

/-- Header discovery and column discovery, source lines 130-174. -/
def parseCtx (rows : List (List Cell)) : Except ParseErr Ctx :=
  match rows.findIdx? isHeaderRow with
  | none => .error .noHeaderRow
  | some hIdx =>
    match (headersOf rows hIdx).findIdx? (· == "Country Name"),
          (headersOf rows hIdx).findIdx? (· == "Country Code") with
    | some nIdx, some cIdx =>
      .ok { nameIdx := nIdx, codeIdx := cIdx,
            years := (yearColsOf (headersOf rows hIdx)).map (·.1),
            yearIdx := yearIdxFun (yearColsOf (headersOf rows hIdx)),
            dataRows := rows.drop (hIdx + 1),
            localTimestamp := findTimestamp rows }
    | _, _ => .error .missingColumns

/-- Trimmed country name of a row (source line 181). -/
def rowName (ctx : Ctx) (row : List Cell) : String := jsTrim (jsString (row.getD ctx.nameIdx .blank))

/-- Trimmed country code of a row (source line 182). -/
def rowCode (ctx : Ctx) (row : List Cell) : String := jsTrim (jsString (row.getD ctx.codeIdx .blank))

/-- Row validation, source lines 179 and 185: the row is long enough to hold
both columns, name and code are non-empty after trimming, and the code has
exactly three characters. -/
def rowAccepted (ctx : Ctx) (row : List Cell) : Bool :=
  decide (max ctx.nameIdx ctx.codeIdx < row.length)
    && rowName ctx row != "" && rowCode ctx row != ""
    && (rowCode ctx row).data.length == 3

/-- Value of a row at a year column, source lines 204-209: the cell must be a
number, not `NaN`, and strictly positive; otherwise there is no data point. -/
def ptOf (ctx : Ctx) (row : List Cell) (y : Nat) : Option ℚ :=
  match ctx.yearIdx y with
  | none => none
  | some i =>
    match row.getD i .blank with
    | .num q => if 0 < q then some q else none
    | _ => none

/-- Point update of the year-indexed table (source line 214). -/
def setPPP (f : Nat → String → Option ℚ) (y : Nat) (code : String) (q : ℚ) :
    Nat → String → Option ℚ :=
  fun y' c' => if y' = y ∧ c' = code then some q else f y' c'

/-- Generic stable ordered insertion: one step of a JS comparator sort. -/
def insertSorted {α : Type} (le : α → α → Bool) (x : α) : List α → List α
  | [] => [x]
  | d :: ds => if le d x then d :: insertSorted le x ds else x :: d :: ds

/-- The comparator `(a, b) => a.year - b.year` of source line 224. -/
def leYear (a b : HistoricalDataPoint) : Bool := decide (a.year ≤ b.year)

/-- Model of the stable JS `sort((a, b) => a.year - b.year)` of source line 224. -/
def sortByYear (l : List HistoricalDataPoint) : List HistoricalDataPoint :=
  l.foldl (fun acc p => insertSorted leYear p acc) []

/-- Append of a data point to one country's historical array when that key is
present (source lines 217-219). -/
def pushHist (h : String → Option (List HistoricalDataPoint)) (code : String)
    (p : HistoricalDataPoint) : String → Option (List HistoricalDataPoint) :=
  fun c' => if c' = code then (h code).map (fun l => l ++ [p]) else h c'

/-- Initialisation of one country's historical array (source line 190). -/
def initHist (h : String → Option (List HistoricalDataPoint)) (code : String) :
    String → Option (List HistoricalDataPoint) :=
  fun c' => if c' = code then some [] else h c'

/-- In-place year sort of one country's historical array (source lines 223-225). -/
def sortHistAt (h : String → Option (List HistoricalDataPoint)) (code : String) :
    String → Option (List HistoricalDataPoint) :=
  fun c' => if c' = code then (h code).map sortByYear else h c'

/-- The three temporary tables accumulated by the row loop (source
lines 171-173). `countries` keeps JS `Map` insertion order. -/
structure ParseAcc where
  ppp : Nat → String → Option ℚ
  hist : String → Option (List HistoricalDataPoint)
  countries : List CountryInfo

/-- Empty accumulator. -/
def initAcc : ParseAcc := ⟨fun _ _ => none, fun _ => none, []⟩

/-- Membership test of the `tempCountriesMap` (source line 187). -/
def hasCode (countries : List CountryInfo) (code : String) : Bool :=
  countries.any (fun c => c.code == code)

/-- Body of `years.forEach` (source lines 203-221) for one year of one row. -/
def stepYear (ctx : Ctx) (row : List Cell) (code : String) (a : ParseAcc) (y : Nat) : ParseAcc :=
  match ptOf ctx row y with
  | none => a
  | some q => { a with ppp := setPPP a.ppp y code q, hist := pushHist a.hist code ⟨y, q⟩ }

/-- First-occurrence country registration with currency enrichment `sym`
(source lines 186-200). -/
def registerCountry (sym : String → Option String) (ctx : Ctx) (acc : ParseAcc)
    (row : List Cell) : ParseAcc :=
  if hasCode acc.countries (rowCode ctx row) then acc
  else
    { acc with
      countries := acc.countries ++ [⟨rowName ctx row, rowCode ctx row, sym (rowCode ctx row)⟩]
      hist := initHist acc.hist (rowCode ctx row) }

/-- The `years.forEach` loop of one row (source lines 203-221). -/
def applyYears (ctx : Ctx) (row : List Cell) (a : ParseAcc) : ParseAcc :=
  ctx.years.foldl (stepYear ctx row (rowCode ctx row)) a

/-- The per-row year sort of the row's country (source lines 223-225). -/
def sortRowHist (ctx : Ctx) (row : List Cell) (a : ParseAcc) : ParseAcc :=
  { a with hist := sortHistAt a.hist (rowCode ctx row) }

/-- Body of `dataRows.forEach` (source lines 178-227) for one row: validation,
first-occurrence country registration with currency enrichment `sym`, the year
loop, and the final per-country year sort. -/
def processRow (sym : String → Option String) (ctx : Ctx) (acc : ParseAcc) (row : List Cell) :
    ParseAcc :=
  if rowAccepted ctx row then
    sortRowHist ctx row (applyYears ctx row (registerCountry sym ctx acc row))
  else acc

/-- The whole row loop. -/
def runRows (sym : String → Option String) (ctx : Ctx) : ParseAcc :=
  ctx.dataRows.foldl (processRow sym ctx) initAcc

/-- The comparator `(a, b) => a.name.localeCompare(b.name)` of source
line 235, with collation modelled by code-point order. -/
def leName (a b : CountryInfo) : Bool := strLe a.name b.name

/-- Model of `uniqueCountries.sort((a, b) => a.name.localeCompare(b.name))`
(source line 235). -/
def sortByName (l : List CountryInfo) : List CountryInfo :=
  l.foldl (fun acc c => insertSorted leName c acc) []

/-- `Math.max(...years, 0)` guarded by `latestAvailableYear > 0` (source
lines 168 and 241). -/
def latestOfYears (years : List Nat) : Option Nat :=
  if 0 < years.foldl max 0 then some (years.foldl max 0) else none

/-- The data committed by a successful parse (source lines 238-243 before the
timestamp fallback is applied). -/
structure ParseOutput where
  yearTable : Nat → String → Option ℚ
  hist : String → Option (List HistoricalDataPoint)
  countries : List CountryInfo
  latestYear : Option Nat
  timestamp : Option String

/-- Assembly of the parse result from a context. -/
def buildOutput (sym : String → Option String) (ctx : Ctx) : ParseOutput :=
  let acc := runRows sym ctx
  { yearTable := acc.ppp, hist := acc.hist, countries := sortByName acc.countries,
    latestYear := latestOfYears ctx.years, timestamp := ctx.localTimestamp }

/-- Sheet selection over a workbook given as an association list of named
sheets (`SheetNames` are the keys, in workbook order). -/
def sheetOf (wb : List (String × List (List Cell))) : Option (List (List Cell)) :=
  match selectSheetName (wb.map Prod.fst) with
  | none => none
  | some n => wb.lookup n

/-- The pure part of `fetchAndCachePPPData` from the decoded workbook to the
data to commit (source lines 92-243). -/
def parseWorkbook (sym : String → Option String) (wb : List (String × List (List Cell))) :
    Except ParseErr ParseOutput :=
  match sheetOf wb with
  | none => .error .noDataSheet
  | some rows => (parseCtx rows).map (buildOutput sym)

/-- Successfully parsed context of a workbook, if any. -/
def ctxOf (wb : List (String × List (List Cell))) : Option Ctx :=
  match sheetOf wb with
  | none => none
  | some rows =>
    match parseCtx rows with
    | .ok c => some c
    | .error _ => none

/-- Successful parse output of a workbook, if any. -/
def parsedOf (sym : String → Option String) (wb : List (String × List (List Cell))) :
    Option ParseOutput :=
  match parseWorkbook sym wb with
  | .ok o => some o
  | .error _ => none

/-- The committed year-indexed table entry for `(year, code)`, or `none` when
the parse failed or the entry is absent. -/
def tableOf (sym : String → Option String) (wb : List (String × List (List Cell)))
    (y : Nat) (code : String) : Option ℚ :=
  match parsedOf sym wb with
  | some o => o.yearTable y code
  | none => none

/-- The committed historical series of a country (empty when the parse failed
or the country is unknown), exactly what `getHistoricalPPPData` returns. -/
def histOf (sym : String → Option String) (wb : List (String × List (List Cell)))
    (code : String) : List HistoricalDataPoint :=
  match parsedOf sym wb with
  | some o => (o.hist code).getD []
  | none => []

/-- The committed country list (empty when the parse failed). -/
def countriesOf (sym : String → Option String) (wb : List (String × List (List Cell))) :
    List CountryInfo :=
  match parsedOf sym wb with
  | some o => o.countries
  | none => []

/-- The committed latest year (absent when the parse failed or no year column
qualified). -/
def latestOf (sym : String → Option String) (wb : List (String × List (List Cell))) :
    Option Nat :=
  match parsedOf sym wb with
  | some o => o.latestYear
  | none => none

/-- The timestamp scraped from the sheet (before the fetch-time fallback). -/
def timestampOfW (sym : String → Option String) (wb : List (String × List (List Cell))) :
    Option String :=
  match parsedOf sym wb with
  | some o => o.timestamp
  | none => none

/-- Cache lookup of `getPPPData` once the cache is populated (source
lines 355-373): `none` when the year key or the country beneath it is absent,
otherwise the `PPPData` record around the stored factor. -/
def lookupPPPData (t : Nat → String → Option ℚ) (countryCode : String) (year : Nat) :
    Option PPPData :=
  match t year countryCode with
  | none => none
  | some q => some ⟨countryCode, q, year⟩

/-- `getPPPData` seen as a pure function of the parsed workbook. -/
def getFactorOf (sym : String → Option String) (wb : List (String × List (List Cell)))
    (code : String) (y : Nat) : Option PPPData :=
  match parsedOf sym wb with
  | some o => lookupPPPData o.yearTable code y
  | none => none

/-- Data rows of the selected sheet ("rows after the header row"). -/
def dataRowsOf (wb : List (String × List (List Cell))) : List (List Cell) :=
  match ctxOf wb with
  | some c => c.dataRows
  | none => []

/-- Year columns (as years, in header order, duplicates kept) of the selected
sheet. -/
def yearsOf (wb : List (String × List (List Cell))) : List Nat :=
  match ctxOf wb with
  | some c => c.years
  | none => []

/-- Row validation relative to a workbook. -/
def rowAcceptedOf (wb : List (String × List (List Cell))) (row : List Cell) : Bool :=
  match ctxOf wb with
  | some c => rowAccepted c row
  | none => false

/-- Trimmed country code of a row relative to a workbook. -/
def rowCodeOf (wb : List (String × List (List Cell))) (row : List Cell) : String :=
  match ctxOf wb with
  | some c => rowCode c row
  | none => ""

/-- Trimmed country name of a row relative to a workbook. -/
def rowNameOf (wb : List (String × List (List Cell))) (row : List Cell) : String :=
  match ctxOf wb with
  | some c => rowName c row
  | none => ""

/-- Parsed cell value of a row at a year, relative to a workbook. -/
def ptAtOf (wb : List (String × List (List Cell))) (row : List Cell) (y : Nat) : Option ℚ :=
  match ctxOf wb with
  | some c => ptOf c row y
  | none => none

/-- The valid data points one row contributes, in year-column order. -/
def rowPoints (ctx : Ctx) (row : List Cell) : List HistoricalDataPoint :=
  ctx.years.filterMap (fun y => (ptOf ctx row y).map (fun q => ⟨y, q⟩))

/-- The valid data points of a row, relative to a workbook. -/
def rowPointsOf (wb : List (String × List (List Cell))) (row : List Cell) :
    List HistoricalDataPoint :=
  match ctxOf wb with
  | some c => rowPoints c row
  | none => []

/-- Whether a row is accepted and carries the given country code. -/
def hitsCode (ctx : Ctx) (code : String) (row : List Cell) : Bool :=
  rowAccepted ctx row && (rowCode ctx row == code)

/-- Well-formedness of the row-loop accumulator: a code is registered in the
country map exactly when its historical array exists (the source initialises
both together, lines 187-190). -/
def accWf (acc : ParseAcc) : Prop :=
  ∀ code, hasCode acc.countries code = (acc.hist code).isSome

/-- The year table one single row would produce on its own. -/
def rowTable (ctx : Ctx) (row : List Cell) (y : Nat) : Option ℚ :=
  if y ∈ ctx.years then ptOf ctx row y else none

/-- The codes of the accepted data rows, in row order (duplicates kept). -/
def acceptedCodesOf (wb : List (String × List (List Cell))) : List String :=
  ((dataRowsOf wb).filter (fun r => rowAcceptedOf wb r)).map (fun r => rowCodeOf wb r)

/-- The first accepted data row carrying the given code, if any. -/
def firstRowFor (wb : List (String × List (List Cell))) (code : String) :
    Option (List Cell) :=
  match ctxOf wb with
  | some c => c.dataRows.find? (hitsCode c code)
  | none => none

/-- The module-level mutable state of `ppp-data.ts` (source lines 49-56),
extended with a fresh-promise counter and a ghost fetch counter: `fetchCount`
counts how many times the network-download-and-parse body has been started. -/
structure SrvState where
  pppDataCache : Option (Nat → String → Option ℚ)
  historicalDataCache : Option (String → Option (List HistoricalDataPoint))
  countriesCache : Option (List CountryInfo)
  cachedLatestYear : Option Nat
  dataLastUpdatedTimestamp : Option String
  isFetchingData : Bool
  fetchPromise : Option Nat
  nextPromiseId : Nat
  fetchCount : Nat

/-- Module state at load time. -/
def initState : SrvState :=
  { pppDataCache := none, historicalDataCache := none, countriesCache := none
    cachedLatestYear := none, dataLastUpdatedTimestamp := none, isFetchingData := false
    fetchPromise := none, nextPromiseId := 0, fetchCount := 0 }

/-- The fully-cached test of source line 68. -/
def allCachedS (s : SrvState) : Bool :=
  s.pppDataCache.isSome && s.countriesCache.isSome && s.cachedLatestYear.isSome
    && s.historicalDataCache.isSome && s.dataLastUpdatedTimestamp.isSome

/-- The `Empty` cache state of the specification: no sub-cache, no in-flight
fetch. -/
def isEmptySrv (s : SrvState) : Bool :=
  s.pppDataCache.isNone && s.historicalDataCache.isNone && s.countriesCache.isNone
    && s.cachedLatestYear.isNone && s.dataLastUpdatedTimestamp.isNone
    && !s.isFetchingData && s.fetchPromise.isNone

/-- What one caller of `fetchAndCachePPPData` gets back from the synchronous
entry section: an already-resolved promise, the shared in-flight promise, or a
freshly started one. -/
inductive EntryResult where
  | cached
  | joined (id : Nat)
  | started (id : Nat)
deriving DecidableEq

/-- The synchronous prefix of `fetchAndCachePPPData` (source lines 66-84).
There is no `await` between the cache check and the assignment of
`fetchPromise`, so in the JS event loop this section runs atomically:
if everything is cached, resolve immediately; if a fetch is in flight and its
promise exists, join it; otherwise start a new fetch (set the flag, create the
promise, begin the download). -/
def fetchEntry (s : SrvState) : SrvState × EntryResult :=
  if allCachedS s then (s, .cached)
  else if s.isFetchingData && s.fetchPromise.isSome then (s, .joined (s.fetchPromise.getD 0))
  else
    ({ s with
       isFetchingData := true
       fetchPromise := some s.nextPromiseId
       nextPromiseId := s.nextPromiseId + 1
       fetchCount := s.fetchCount + 1 },
     .started s.nextPromiseId)

/-- JS `a || b` on a nullable string: `null` and the empty string both fall
back (source line 243). -/
def jsOrElse (a : Option String) (fb : String) : String :=
  match a with
  | some s => if s == "" then fb else s
  | none => fb

/-- The successful commit (source lines 238-243): all sub-caches are assigned
together; `cachedLatestYear` is `null` when no year qualified; the timestamp
falls back to a string built from the fetch start time (`fb`). The fetching
flag drops in the `finally` block. -/
def commit (p : ParseOutput) (fb : String) (s : SrvState) : SrvState :=
  { s with
    pppDataCache := some p.yearTable
    historicalDataCache := some p.hist
    countriesCache := some p.countries
    cachedLatestYear := p.latestYear
    dataLastUpdatedTimestamp := some (jsOrElse p.timestamp fb)
    isFetchingData := false }

/-- The failure path (source lines 248-259): every sub-cache and the stored
promise are cleared so a later call can retry; the fetching flag drops in the
`finally` block. -/
def resetOnError (s : SrvState) : SrvState :=
  { s with
    pppDataCache := none
    historicalDataCache := none
    countriesCache := none
    cachedLatestYear := none
    dataLastUpdatedTimestamp := none
    fetchPromise := none
    isFetchingData := false }

/-- One complete call of `fetchAndCachePPPData` as observed by one caller:
the entry section followed, unless already cached, by the settlement of the
attempt with outcome `out` (network/parse success or failure) and fallback
timestamp `fb`. The second component is what the caller's `await` sees. -/
def fetchAndCachePPPData (s : SrvState) (out : Except Unit ParseOutput) (fb : String) :
    SrvState × Except Unit Unit :=
  match fetchEntry s with
  | (s1, .cached) => (s1, .ok ())
  | (s1, _) =>
    match out with
    | .ok p => (commit p fb s1, .ok ())
    | .error e => (resetOnError s1, .error e)

/-- `getCountries` (source lines 276-286): population is triggered only when
the countries sub-cache is absent; a failure is caught and surfaced as the
empty list. -/
def getCountries (s : SrvState) (out : Except Unit ParseOutput) (fb : String) :
    List CountryInfo × SrvState :=
  match s.countriesCache with
  | some cl => (cl, s)
  | none =>
    match fetchAndCachePPPData s out fb with
    | (s1, .error _) => ([], s1)
    | (s1, .ok _) => (s1.countriesCache.getD [], s1)

/-- `getLatestAvailableYear` (source lines 294-305): fetches only when both
the latest-year cache and the main data cache are absent; a failure is caught
and surfaced as `none`. -/
def getLatestAvailableYear (s : SrvState) (out : Except Unit ParseOutput) (fb : String) :
    Option Nat × SrvState :=
  if s.cachedLatestYear.isNone && s.pppDataCache.isNone then
    match fetchAndCachePPPData s out fb with
    | (s1, .error _) => (none, s1)
    | (s1, .ok _) => (s1.cachedLatestYear, s1)
  else (s.cachedLatestYear, s)

/-- `getDataLastUpdatedTimestamp` (source lines 314-325). -/
def getDataLastUpdatedTimestamp (s : SrvState) (out : Except Unit ParseOutput) (fb : String) :
    Option String × SrvState :=
  if s.dataLastUpdatedTimestamp.isNone && s.pppDataCache.isNone then
    match fetchAndCachePPPData s out fb with
    | (s1, .error _) => (none, s1)
    | (s1, .ok _) => (s1.dataLastUpdatedTimestamp, s1)
  else (s.dataLastUpdatedTimestamp, s)

/-- `getPPPData` (source lines 336-374): triggers population when the cache is
absent, returns `none` on failure or absence, otherwise the cached factor. -/
def getPPPData (s : SrvState) (out : Except Unit ParseOutput) (fb : String)
    (countryCode : String) (year : Nat) : Option PPPData × SrvState :=
  match s.pppDataCache with
  | some t => (lookupPPPData t countryCode year, s)
  | none =>
    match fetchAndCachePPPData s out fb with
    | (s1, .error _) => (none, s1)
    | (s1, .ok _) =>
      match s1.pppDataCache with
      | none => (none, s1)
      | some t => (lookupPPPData t countryCode year, s1)

/-- `getHistoricalPPPData` (source lines 384-409). -/
def getHistoricalPPPData (s : SrvState) (out : Except Unit ParseOutput) (fb : String)
    (countryCode : String) : List HistoricalDataPoint × SrvState :=
  match s.historicalDataCache with
  | some h => ((h countryCode).getD [], s)
  | none =>
    match fetchAndCachePPPData s out fb with
    | (s1, .error _) => ([], s1)
    | (s1, .ok _) =>
      match s1.historicalDataCache with
      | none => ([], s1)
      | some h => ((h countryCode).getD [], s1)

/-- One public query operation of the module. -/
inductive QueryOp where
  | countriesQ
  | latestYearQ
  | timestampQ
  | factorQ (code : String) (year : Nat)
  | historicalQ (code : String)

/-- State transition of one public query with fetch outcome `out`. -/
def applyOp (s : SrvState) (out : Except Unit ParseOutput) (fb : String) : QueryOp → SrvState
  | .countriesQ => (getCountries s out fb).2
  | .latestYearQ => (getLatestAvailableYear s out fb).2
  | .timestampQ => (getDataLastUpdatedTimestamp s out fb).2
  | .factorQ code year => (getPPPData s out fb code year).2
  | .historicalQ code => (getHistoricalPPPData s out fb code).2

/-- State after a sequence of completed `fetchAndCachePPPData` attempts. -/
def runAttempts (s : SrvState) : List (Except Unit ParseOutput × String) → SrvState
  | [] => s
  | (out, fb) :: rest => runAttempts (fetchAndCachePPPData s out fb).1 rest

/-- A state whose four data sub-caches are all populated (a successful commit
establishes this; `cachedLatestYear` may legitimately be `null`). -/
def populatedS (s : SrvState) : Bool :=
  s.pppDataCache.isSome && s.historicalDataCache.isSome && s.countriesCache.isSome
    && s.dataLastUpdatedTimestamp.isSome

/-- N callers running the synchronous entry section one after another (the
JS event loop interleaves whole entry sections, never their middles). -/
def entryIter : Nat → SrvState → SrvState × List EntryResult
  | 0, s => (s, [])
  | n + 1, s =>
    match fetchEntry s with
    | (s1, r) =>
      match entryIter n s1 with
      | (s2, rs) => (s2, r :: rs)

/-- A concrete parse output with no timestamp row found (used to exercise the
fetch-time fallback). -/
def pEx : ParseOutput :=
  { yearTable := fun _ _ => none, hist := fun _ => none, countries := [],
    latestYear := none, timestamp := none }

/-- Currency collaborator that knows no symbol (enrichment is best-effort and
may return nothing for every code). -/
def symNone : String → Option String := fun _ => none

/-- The header row of the specification's worked example. -/
def exHeader : List Cell := [.str "Country Name", .str "Country Code", .str "1991", .str "1992"]

/-- The specification's worked example workbook: header
`Country Name, Country Code, 1991, 1992` and the single row
`Testland, TST, 50, (empty)`. -/
def wbEx : List (String × List (List Cell)) :=
  [("Data", [exHeader, [.str "Testland", .str "TST", .num 50, .str ""]])]

/-- The second, duplicate-code data row of the duplication example. -/
def wbDupRow2 : List Cell := [.str "Second", .str "AAA", .num 3, .num 7]

/-- A workbook whose data rows carry a duplicated country code `AAA`: the
first row has a 1991 value of 2, the second a 1991 value of 3 and a 1992
value of 7. -/
def wbDup : List (String × List (List Cell)) :=
  [("Data", [exHeader, [.str "First", .str "AAA", .num 2, .str ""], wbDupRow2])]

/-- A workbook with year columns 1991 and 1992 where no row has a valid 1992
value. -/
def wbGap : List (String × List (List Cell)) :=
  [("Data", [exHeader, [.str "Aland", .str "AAA", .num 5, .str ""]])]

/-- Totality of the code-point comparison. -/
theorem strLeAux_total : ∀ as bs : List Char, strLeAux as bs = false → strLeAux bs as = true := by
  intro as
  induction as with
  | nil => intro bs h; simp [strLeAux] at h
  | cons a as ih =>
    intro bs h
    cases bs with
    | nil => simp [strLeAux]
    | cons b bs =>
      simp only [strLeAux] at h ⊢
      by_cases h1 : a.toNat < b.toNat
      · simp [h1] at h
      · by_cases h2 : b.toNat < a.toNat
        · simp [h1, h2]
        · simp [h1, h2] at h ⊢
          exact ih bs h

/-- Transitivity of the code-point comparison. -/
theorem strLeAux_trans : ∀ as bs cs : List Char,
    strLeAux as bs = true → strLeAux bs cs = true → strLeAux as cs = true := by
  intro as
  induction as with
  | nil => intro bs cs _ _; simp [strLeAux]
  | cons a as ih =>
    intro bs cs h1 h2
    cases bs with
    | nil => simp [strLeAux] at h1
    | cons b bs =>
      cases cs with
      | nil => simp [strLeAux] at h2
      | cons c cs =>
        simp only [strLeAux] at h1 h2 ⊢
        by_cases hab : a.toNat < b.toNat
        · by_cases hbc : b.toNat < c.toNat
          · have hac : a.toNat < c.toNat := by omega
            simp [hac]
          · by_cases hcb : c.toNat < b.toNat
            · simp [hbc, hcb] at h2
            · have hac : a.toNat < c.toNat := by omega
              simp [hac]
        · by_cases hba : b.toNat < a.toNat
          · simp [hab, hba] at h1
          · simp [hab, hba] at h1
            by_cases hbc : b.toNat < c.toNat
            · have hac : a.toNat < c.toNat := by omega
              simp [hac]
            · by_cases hcb : c.toNat < b.toNat
              · simp [hbc, hcb] at h2
              · simp [hbc, hcb] at h2
                have hac1 : ¬a.toNat < c.toNat := by omega
                have hca : ¬c.toNat < a.toNat := by omega
                simp [hac1, hca]
                exact ih bs cs h1 h2

/-- Totality of `strLe`. -/
theorem strLe_total (a b : String) (h : strLe a b = false) : strLe b a = true :=
  strLeAux_total a.data b.data h

/-- Transitivity of `strLe`. -/
theorem strLe_trans (a b c : String) (h1 : strLe a b = true) (h2 : strLe b c = true) :
    strLe a c = true :=
  strLeAux_trans a.data b.data c.data h1 h2

/-- Inserting permutes to consing. -/
theorem insertSorted_perm {α : Type} (le : α → α → Bool) (x : α) :
    ∀ l : List α, (insertSorted le x l).Perm (x :: l) := by
  intro l
  induction l with
  | nil => exact List.Perm.refl _
  | cons d ds ih =>
    simp only [insertSorted]
    split
    · exact ((ih.cons d).trans (List.Perm.swap x d ds))
    · exact List.Perm.refl _

/-- A comparator fold of ordered insertions permutes to appending. -/
theorem foldl_insertSorted_perm {α : Type} (le : α → α → Bool) :
    ∀ (l acc : List α), (l.foldl (fun a x => insertSorted le x a) acc).Perm (acc ++ l) := by
  intro l
  induction l with
  | nil => intro acc; simp
  | cons p l ih =>
    intro acc
    have h1 := ih (insertSorted le p acc)
    have h2 : (insertSorted le p acc ++ l).Perm (acc ++ p :: l) := by
      have := (insertSorted_perm le p acc).append_right l
      exact this.trans (List.perm_middle.symm)
    simpa using h1.trans h2

/-- Ordered insertion preserves pairwise sortedness for a total transitive
comparator. -/
theorem insertSorted_pairwise {α : Type} (le : α → α → Bool)
    (htot : ∀ a b, le a b = false → le b a = true)
    (htrans : ∀ a b c, le a b = true → le b c = true → le a c = true)
    (x : α) : ∀ l : List α, l.Pairwise (fun a b => le a b = true) →
    (insertSorted le x l).Pairwise (fun a b => le a b = true) := by
  intro l
  induction l with
  | nil => intro _; simp [insertSorted]
  | cons d ds ih =>
    intro h
    rw [List.pairwise_cons] at h
    obtain ⟨hd, hds⟩ := h
    simp only [insertSorted]
    split
    · rename_i hle
      rw [List.pairwise_cons]
      refine ⟨?_, ih hds⟩
      intro y hy
      rcases List.mem_cons.mp ((insertSorted_perm le x ds).mem_iff.mp hy) with hy1 | hy1
      · rw [hy1]; exact hle
      · exact hd y hy1
    · rename_i hle
      have hxd : le x d = true := htot d x (by simpa using hle)
      rw [List.pairwise_cons]
      refine ⟨?_, List.pairwise_cons.mpr ⟨hd, hds⟩⟩
      intro y hy
      rcases List.mem_cons.mp hy with hy1 | hy1
      · rw [hy1]; exact hxd
      · exact htrans x d y hxd (hd y hy1)

/-- A comparator fold of ordered insertions yields a pairwise-sorted list. -/
theorem foldl_insertSorted_pairwise {α : Type} (le : α → α → Bool)
    (htot : ∀ a b, le a b = false → le b a = true)
    (htrans : ∀ a b c, le a b = true → le b c = true → le a c = true) :
    ∀ (l acc : List α), acc.Pairwise (fun a b => le a b = true) →
    (l.foldl (fun a x => insertSorted le x a) acc).Pairwise (fun a b => le a b = true) := by
  intro l
  induction l with
  | nil => intro acc h; simpa using h
  | cons p l ih =>
    intro acc h
    exact ih _ (insertSorted_pairwise le htot htrans p acc h)

/-- `sortByYear` permutes its input. -/
theorem sortByYear_perm (l : List HistoricalDataPoint) : (sortByYear l).Perm l := by
  simpa using foldl_insertSorted_perm leYear l []

/-- `sortByYear` sorts by year. -/
theorem sortByYear_pairwise (l : List HistoricalDataPoint) :
    (sortByYear l).Pairwise (fun a b => a.year ≤ b.year) := by
  have h := foldl_insertSorted_pairwise leYear
    (by intro a b h; simp [leYear] at h ⊢; omega)
    (by intro a b c h1 h2; simp [leYear] at h1 h2 ⊢; omega)
    l [] (by simp)
  have : (sortByYear l).Pairwise (fun a b => leYear a b = true) := h
  refine this.imp ?_
  intro a b hab
  simpa [leYear] using hab

/-- `sortByName` permutes its input. -/
theorem sortByName_perm (l : List CountryInfo) : (sortByName l).Perm l := by
  simpa using foldl_insertSorted_perm leName l []

/-- `sortByName` sorts by name. -/
theorem sortByName_pairwise (l : List CountryInfo) :
    (sortByName l).Pairwise (fun a b => strLe a.name b.name = true) := by
  have h := foldl_insertSorted_pairwise leName
    (by intro a b h; exact strLe_total a.name b.name h)
    (by intro a b c h1 h2; exact strLe_trans a.name b.name c.name h1 h2)
    l [] (by simp)
  exact h

/-- None of the hard-coded preferred sheet names is metadata-like. -/
theorem potentialSheetNames_not_metadata :
    ∀ p ∈ potentialSheetNames, isMetadataName p = false := by decide

/-- A selected sheet name is one of the workbook's sheet names. -/
theorem selectSheetName_mem (names : List String) (n : String)
    (h : selectSheetName names = some n) : n ∈ names := by
  unfold selectSheetName at h
  split at h
  · rename_i m hf
    injection h with h
    subst h
    have hc := List.find?_some hf
    simpa using hc
  · cases names with
    | nil => simp [fallbackSheetName] at h
    | cons first rest =>
      simp only [fallbackSheetName] at h
      by_cases hm : isMetadataName first = true
      · rw [hm] at h
        simp only [Bool.not_true, Bool.false_eq_true, if_false] at h
        cases rest with
        | nil => exact absurd h (by simp)
        | cons second rest2 =>
          injection h with h
          subst h
          exact List.mem_cons_of_mem _ (List.mem_cons_self _ _)
      · rw [Bool.not_eq_true] at hm
        rw [hm] at h
        simp at h
        subst h
        exact List.mem_cons_self _ _

/-- C7 (amended): sheet selection prefers the literal name `Data`; any
selected sheet is one of the workbook's sheets; and selection fails exactly
when the workbook has no sheets at all, or has exactly one sheet whose name
contains `metadata` case-insensitively (the hard-coded names `Data`,
`Sheet1`, `API_PA.NUS.PPP_DS2_en_excel_v2` are preferred before the
metadata heuristic, and a workbook with two or more sheets always selects
some sheet). -/
theorem selectSheetName_policy (names : List String) :
    ("Data" ∈ names → selectSheetName names = some "Data")
    ∧ (∀ n, selectSheetName names = some n → n ∈ names)
    ∧ (selectSheetName names = none ↔
        names = [] ∨ ∃ a, names = [a] ∧ isMetadataName a = true) := by
  refine ⟨?_, fun n h => selectSheetName_mem names n h, ?_, ?_⟩
  · intro h
    simp [selectSheetName, potentialSheetNames, List.find?, h]
  · intro h
    unfold selectSheetName at h
    split at h
    · exact absurd h (by simp)
    · cases names with
      | nil => exact Or.inl rfl
      | cons first rest =>
        simp only [fallbackSheetName] at h
        by_cases hm : isMetadataName first = true
        · rw [hm] at h
          simp only [Bool.not_true, Bool.false_eq_true, if_false] at h
          cases rest with
          | nil => exact Or.inr ⟨first, rfl, hm⟩
          | cons second rest2 => exact absurd h (by simp)
        · rw [Bool.not_eq_true] at hm
          rw [hm] at h
          simp at h
  · intro h
    rcases h with h | ⟨a, hnames, hmeta⟩
    · subst h; decide
    · subst hnames
      have hf : List.find? (fun n => [a].contains n) potentialSheetNames = none := by
        cases hf2 : List.find? (fun n => [a].contains n) potentialSheetNames with
        | none => rfl
        | some m =>
          have hmem := List.mem_of_find?_eq_some hf2
          have hcm := List.find?_some hf2
          have hma : m = a := by simpa using hcm
          have hnm := potentialSheetNames_not_metadata m hmem
          rw [hma, hmeta] at hnm
          exact absurd hnm (by simp)
      unfold selectSheetName
      rw [hf]
      simp [fallbackSheetName, hmeta]

/-- C7 (counterexample): the claimed fallback-to-first-sheet policy is not
what the code does. A workbook whose only sheet is named
`Metadata - Countries` has a sheet, yet selection fails (the parser raises
the no-data-sheet error); and in a workbook with sheets `Foo, Sheet1`, the
first sheet `Foo` is not metadata-like, yet the hard-coded preference picks
`Sheet1` instead of `Foo`. -/
theorem selectSheetName_counterexample :
    selectSheetName ["Metadata - Countries"] = none
    ∧ parseWorkbook symNone [("Metadata - Countries", [])] = .error .noDataSheet
    ∧ isMetadataName "Foo" = false
    ∧ selectSheetName ["Foo", "Sheet1"] = some "Sheet1" :=
  ⟨by decide, rfl, by decide, by decide⟩

/-- C7 witness: the amended policy applied to a concrete workbook whose
sheets are `Metadata - Countries` and `Data`. -/
theorem selectSheetName_policy_witness :
    selectSheetName ["Metadata - Countries", "Data"] = some "Data" :=
  (selectSheetName_policy ["Metadata - Countries", "Data"]).1 (by decide)

/-- A parsed cell value is strictly positive (the guard of source line 209). -/
theorem ptOf_pos (ctx : Ctx) (row : List Cell) (y : Nat) (q : ℚ)
    (h : ptOf ctx row y = some q) : 0 < q := by
  unfold ptOf at h
  split at h
  · exact absurd h (by simp)
  · split at h
    · split at h
      · rename_i hq
        injection h with h
        subst h
        exact hq
      · exact absurd h (by simp)
    · exact absurd h (by simp)

/-- One year step changes the table only at the row's code and that year with
the row's parsed value. -/
theorem stepYear_ppp_src (ctx : Ctx) (row : List Cell) (code0 : String) (a : ParseAcc)
    (y0 y : Nat) (code : String) (q : ℚ)
    (h : (stepYear ctx row code0 a y0).ppp y code = some q) :
    a.ppp y code = some q ∨ (y = y0 ∧ code = code0 ∧ ptOf ctx row y0 = some q) := by
  unfold stepYear at h
  split at h
  · exact Or.inl h
  · rename_i q0 hpt
    simp only [setPPP] at h
    split at h
    · rename_i hcond
      injection h with h
      subst h
      exact Or.inr ⟨hcond.1, hcond.2, hpt⟩
    · exact Or.inl h

/-- The year loop of one row changes the table only at the row's code, at
years of the year-column list, with the row's parsed values. -/
theorem applyYears_ppp_src (ctx : Ctx) (row : List Cell) (code0 : String) :
    ∀ (ys : List Nat) (a : ParseAcc) (y : Nat) (code : String) (q : ℚ),
    (ys.foldl (stepYear ctx row code0) a).ppp y code = some q →
    a.ppp y code = some q ∨ (code = code0 ∧ y ∈ ys ∧ ptOf ctx row y = some q) := by
  intro ys
  induction ys with
  | nil => intro a y code q h; exact Or.inl h
  | cons y0 ys ih =>
    intro a y code q h
    rcases ih _ y code q h with h1 | h1
    · rcases stepYear_ppp_src ctx row code0 a y0 y code q h1 with h2 | h2
      · exact Or.inl h2
      · obtain ⟨hy, hc, hpt⟩ := h2
        subst hy
        exact Or.inr ⟨hc, List.mem_cons_self _ _, hpt⟩
    · obtain ⟨hc, hy, hpt⟩ := h1
      exact Or.inr ⟨hc, List.mem_cons_of_mem _ hy, hpt⟩

/-- Registration does not change the year table. -/
theorem registerCountry_ppp (sym : String → Option String) (ctx : Ctx) (acc : ParseAcc)
    (row : List Cell) : (registerCountry sym ctx acc row).ppp = acc.ppp := by
  unfold registerCountry
  split
  · rfl
  · rfl

/-- One row changes the year table only if accepted, only at its own code, at
listed years, with its parsed values. -/
theorem processRow_ppp_src (sym : String → Option String) (ctx : Ctx) (acc : ParseAcc)
    (row : List Cell) (y : Nat) (code : String) (q : ℚ)
    (h : (processRow sym ctx acc row).ppp y code = some q) :
    acc.ppp y code = some q ∨
      (rowAccepted ctx row = true ∧ code = rowCode ctx row ∧ y ∈ ctx.years
        ∧ ptOf ctx row y = some q) := by
  unfold processRow at h
  split at h
  · rename_i hacc
    simp only [sortRowHist] at h
    unfold applyYears at h
    rcases applyYears_ppp_src ctx row (rowCode ctx row) ctx.years _ y code q h with h1 | h1
    · rw [registerCountry_ppp] at h1
      exact Or.inl h1
    · exact Or.inr ⟨hacc, h1.1, h1.2.1, h1.2.2⟩
  · exact Or.inl h

/-- The whole row loop: every table entry originates from some accepted row. -/
theorem foldRows_ppp_src (sym : String → Option String) (ctx : Ctx) :
    ∀ (rows : List (List Cell)) (acc : ParseAcc) (y : Nat) (code : String) (q : ℚ),
    (rows.foldl (processRow sym ctx) acc).ppp y code = some q →
    acc.ppp y code = some q ∨
      ∃ row ∈ rows, rowAccepted ctx row = true ∧ code = rowCode ctx row ∧ y ∈ ctx.years
        ∧ ptOf ctx row y = some q := by
  intro rows
  induction rows with
  | nil => intro acc y code q h; exact Or.inl h
  | cons row rows ih =>
    intro acc y code q h
    rcases ih _ y code q h with h1 | h1
    · rcases processRow_ppp_src sym ctx acc row y code q h1 with h2 | h2
      · exact Or.inl h2
      · exact Or.inr ⟨row, List.mem_cons_self _ _, h2⟩
    · obtain ⟨r, hr, hrest⟩ := h1
      exact Or.inr ⟨r, List.mem_cons_of_mem _ hr, hrest⟩

/-- The parse output of a workbook is the build over its parsed context. -/
theorem parsedOf_ctxOf (sym : String → Option String) (wb : List (String × List (List Cell))) :
    parsedOf sym wb = Option.map (buildOutput sym) (ctxOf wb) := by
  unfold parsedOf parseWorkbook ctxOf
  cases hs : sheetOf wb with
  | none => rfl
  | some rows =>
    cases hc : parseCtx rows with
    | ok c => simp [hc, Except.map]
    | error e => simp [hc, Except.map]

/-- Projection of `tableOf` through a parsed context. -/
theorem tableOf_eq (sym : String → Option String) (wb : List (String × List (List Cell)))
    (c : Ctx) (h : ctxOf wb = some c) (y : Nat) (code : String) :
    tableOf sym wb y code = (runRows sym c).ppp y code := by
  unfold tableOf
  rw [parsedOf_ctxOf, h]
  rfl

/-- Projection of `histOf` through a parsed context. -/
theorem histOf_eq (sym : String → Option String) (wb : List (String × List (List Cell)))
    (c : Ctx) (h : ctxOf wb = some c) (code : String) :
    histOf sym wb code = ((runRows sym c).hist code).getD [] := by
  unfold histOf
  rw [parsedOf_ctxOf, h]
  rfl

/-- Projection of `countriesOf` through a parsed context. -/
theorem countriesOf_eq (sym : String → Option String) (wb : List (String × List (List Cell)))
    (c : Ctx) (h : ctxOf wb = some c) :
    countriesOf sym wb = sortByName (runRows sym c).countries := by
  unfold countriesOf
  rw [parsedOf_ctxOf, h]
  rfl

/-- Projection of `latestOf` through a parsed context. -/
theorem latestOf_eq (sym : String → Option String) (wb : List (String × List (List Cell)))
    (c : Ctx) (h : ctxOf wb = some c) :
    latestOf sym wb = latestOfYears c.years := by
  unfold latestOf
  rw [parsedOf_ctxOf, h]
  rfl

/-- Projection of `getFactorOf` through a parsed context. -/
theorem getFactorOf_eq (sym : String → Option String) (wb : List (String × List (List Cell)))
    (c : Ctx) (h : ctxOf wb = some c) (code : String) (y : Nat) :
    getFactorOf sym wb code y = lookupPPPData (runRows sym c).ppp code y := by
  unfold getFactorOf
  rw [parsedOf_ctxOf, h]
  rfl

/-- Projection of `dataRowsOf` through a parsed context. -/
theorem dataRowsOf_eq (wb : List (String × List (List Cell))) (c : Ctx)
    (h : ctxOf wb = some c) : dataRowsOf wb = c.dataRows := by
  unfold dataRowsOf
  rw [h]

/-- Projection of `yearsOf` through a parsed context. -/
theorem yearsOf_eq (wb : List (String × List (List Cell))) (c : Ctx)
    (h : ctxOf wb = some c) : yearsOf wb = c.years := by
  unfold yearsOf
  rw [h]

/-- Projection of `rowAcceptedOf` through a parsed context. -/
theorem rowAcceptedOf_eq (wb : List (String × List (List Cell))) (c : Ctx)
    (h : ctxOf wb = some c) (row : List Cell) : rowAcceptedOf wb row = rowAccepted c row := by
  unfold rowAcceptedOf
  rw [h]

/-- Projection of `rowCodeOf` through a parsed context. -/
theorem rowCodeOf_eq (wb : List (String × List (List Cell))) (c : Ctx)
    (h : ctxOf wb = some c) (row : List Cell) : rowCodeOf wb row = rowCode c row := by
  unfold rowCodeOf
  rw [h]

/-- Projection of `rowNameOf` through a parsed context. -/
theorem rowNameOf_eq (wb : List (String × List (List Cell))) (c : Ctx)
    (h : ctxOf wb = some c) (row : List Cell) : rowNameOf wb row = rowName c row := by
  unfold rowNameOf
  rw [h]

/-- Projection of `ptAtOf` through a parsed context. -/
theorem ptAtOf_eq (wb : List (String × List (List Cell))) (c : Ctx)
    (h : ctxOf wb = some c) (row : List Cell) (y : Nat) : ptAtOf wb row y = ptOf c row y := by
  unfold ptAtOf
  rw [h]

/-- Projection of `rowPointsOf` through a parsed context. -/
theorem rowPointsOf_eq (wb : List (String × List (List Cell))) (c : Ctx)
    (h : ctxOf wb = some c) (row : List Cell) : rowPointsOf wb row = rowPoints c row := by
  unfold rowPointsOf
  rw [h]

/-- When the workbook does not parse, every query projection is empty. -/
theorem projections_of_ctx_none (sym : String → Option String)
    (wb : List (String × List (List Cell))) (h : ctxOf wb = none) :
    (∀ y code, tableOf sym wb y code = none)
    ∧ (∀ code, histOf sym wb code = [])
    ∧ countriesOf sym wb = []
    ∧ latestOf sym wb = none
    ∧ (∀ code y, getFactorOf sym wb code y = none) := by
  have hp : parsedOf sym wb = none := by rw [parsedOf_ctxOf, h]; rfl
  refine ⟨?_, ?_, ?_, ?_, ?_⟩
  · intro y code; unfold tableOf; rw [hp]
  · intro code; unfold histOf; rw [hp]
  · unfold countriesOf; rw [hp]
  · unfold latestOf; rw [hp]
  · intro code y; unfold getFactorOf; rw [hp]

/-- C1: after a successful population, every `(countryCode, year)` entry of
the year-indexed table holds a factor strictly greater than zero that was
parsed from a year cell of some accepted data row carrying that country code,
and `getPPPData` returns exactly that factor; for every pair absent from the
table, `getPPPData` returns `none` (the lookup is a total function - no
exception can be raised). -/
theorem getPPPData_point_lookup (sym : String → Option String)
    (wb : List (String × List (List Cell))) (code : String) (y : Nat) :
    (∀ q : ℚ, tableOf sym wb y code = some q →
       0 < q ∧ ∃ row ∈ dataRowsOf wb, rowAcceptedOf wb row = true
         ∧ rowCodeOf wb row = code ∧ ptAtOf wb row y = some q)
    ∧ (tableOf sym wb y code = none → getFactorOf sym wb code y = none)
    ∧ (∀ q : ℚ, tableOf sym wb y code = some q →
        getFactorOf sym wb code y = some ⟨code, q, y⟩) := by
  cases hctx : ctxOf wb with
  | none =>
    obtain ⟨ht, _, _, _, hf⟩ := projections_of_ctx_none sym wb hctx
    refine ⟨?_, ?_, ?_⟩
    · intro q hq; rw [ht y code] at hq; exact absurd hq (by simp)
    · intro _; exact hf code y
    · intro q hq; rw [ht y code] at hq; exact absurd hq (by simp)
  | some c =>
    have ht := tableOf_eq sym wb c hctx y code
    have hf := getFactorOf_eq sym wb c hctx code y
    refine ⟨?_, ?_, ?_⟩
    · intro q hq
      rw [ht] at hq
      have hq' : (c.dataRows.foldl (processRow sym c) initAcc).ppp y code = some q := hq
      rcases foldRows_ppp_src sym c c.dataRows initAcc y code q hq' with h1 | h1
      · exact absurd h1 (by simp [initAcc])
      · obtain ⟨row, hrow, haccp, hcode, hyy, hpt⟩ := h1
        refine ⟨ptOf_pos c row y q hpt, row, ?_, ?_, ?_, ?_⟩
        · rw [dataRowsOf_eq wb c hctx]; exact hrow
        · rw [rowAcceptedOf_eq wb c hctx]; exact haccp
        · rw [rowCodeOf_eq wb c hctx]; exact hcode.symm
        · rw [ptAtOf_eq wb c hctx]; exact hpt
    · intro hq
      rw [hf]
      unfold lookupPPPData
      rw [ht] at hq
      rw [hq]
    · intro q hq
      rw [hf]
      unfold lookupPPPData
      rw [ht] at hq
      rw [hq]

/-- C1 witness: the worked example - the stored factor 50 for `(TST, 1991)`
is positive, comes from the only data row, and is what `getPPPData` returns;
`(TST, 1992)` is absent and `getPPPData` returns `none`. -/
theorem getPPPData_point_lookup_witness :
    tableOf symNone wbEx 1991 "TST" = some 50
    ∧ (0 : ℚ) < 50
    ∧ getFactorOf symNone wbEx "TST" 1991 = some ⟨"TST", 50, 1991⟩
    ∧ tableOf symNone wbEx 1992 "TST" = none
    ∧ getFactorOf symNone wbEx "TST" 1992 = none := by
  have h1 : tableOf symNone wbEx 1991 "TST" = some 50 := by decide
  have h2 : tableOf symNone wbEx 1992 "TST" = none := by decide
  refine ⟨h1, ?_, ?_, h2, ?_⟩
  · exact ((getPPPData_point_lookup symNone wbEx "TST" 1991).1 50 h1).1
  · exact (getPPPData_point_lookup symNone wbEx "TST" 1991).2.2 50 h1
  · exact (getPPPData_point_lookup symNone wbEx "TST" 1992).2.1 h2

/-- Elimination of a successful header/column discovery. -/
theorem parseCtx_ok_elim (rows : List (List Cell)) (c : Ctx) (h : parseCtx rows = .ok c) :
    ∃ hIdx nIdx cIdx,
      rows.findIdx? isHeaderRow = some hIdx
      ∧ (headersOf rows hIdx).findIdx? (· == "Country Name") = some nIdx
      ∧ (headersOf rows hIdx).findIdx? (· == "Country Code") = some cIdx
      ∧ c = { nameIdx := nIdx, codeIdx := cIdx,
              years := (yearColsOf (headersOf rows hIdx)).map (·.1),
              yearIdx := yearIdxFun (yearColsOf (headersOf rows hIdx)),
              dataRows := rows.drop (hIdx + 1),
              localTimestamp := findTimestamp rows } := by
  unfold parseCtx at h
  split at h
  · exact absurd h (by simp)
  · rename_i hIdx hfind
    split at h
    · rename_i nIdx cIdx hn hc
      injection h with h
      exact ⟨hIdx, nIdx, cIdx, hfind, hn, hc, h.symm⟩
    · exact absurd h (by simp)

/-- A parsed context arises from header discovery on the selected sheet. -/
theorem ctxOf_elim (wb : List (String × List (List Cell))) (c : Ctx)
    (h : ctxOf wb = some c) :
    ∃ rows, sheetOf wb = some rows ∧ parseCtx rows = .ok c := by
  unfold ctxOf at h
  split at h
  · exact absurd h (by simp)
  · rename_i rows hs
    split at h
    · rename_i c2 hc
      injection h with h
      subst h
      exact ⟨rows, hs, hc⟩
    · exact absurd h (by simp)

/-- Every recognised year column is at least 1990. -/
theorem ctxOf_years_ge (wb : List (String × List (List Cell))) (c : Ctx)
    (h : ctxOf wb = some c) : ∀ y ∈ c.years, 1990 ≤ y := by
  obtain ⟨rows, _, hc⟩ := ctxOf_elim wb c h
  obtain ⟨hIdx, nIdx, cIdx, _, _, _, hceq⟩ := parseCtx_ok_elim rows c hc
  subst hceq
  intro y hy
  simp only [yearColsOf, List.map_map, List.mem_map] at hy
  obtain ⟨p, hp, hpy⟩ := hy
  rw [List.mem_filter] at hp
  have hyh := hp.2
  unfold isYearHeader at hyh
  simp only [Bool.and_eq_true, decide_eq_true_eq] at hyh
  rw [← hpy]
  exact hyh.2

/-- The seed is below a maximum fold. -/
theorem le_foldl_max : ∀ (ys : List Nat) (a : Nat), a ≤ ys.foldl max a := by
  intro ys
  induction ys with
  | nil => intro a; exact Nat.le_refl a
  | cons y ys ih =>
    intro a
    exact Nat.le_trans (Nat.le_max_left a y) (ih (max a y))

/-- Every member is below a maximum fold. -/
theorem mem_le_foldl_max : ∀ (ys : List Nat) (a y : Nat), y ∈ ys → y ≤ ys.foldl max a := by
  intro ys
  induction ys with
  | nil => intro a y hy; exact absurd hy (by simp)
  | cons z ys ih =>
    intro a y hy
    rcases List.mem_cons.mp hy with hy1 | hy1
    · subst hy1
      exact Nat.le_trans (Nat.le_max_right a y) (le_foldl_max ys (max a y))
    · exact ih (max a z) y hy1

/-- A maximum fold is the seed or a member. -/
theorem foldl_max_mem : ∀ (ys : List Nat) (a : Nat),
    ys.foldl max a = a ∨ ys.foldl max a ∈ ys := by
  intro ys
  induction ys with
  | nil => intro a; exact Or.inl rfl
  | cons y ys ih =>
    intro a
    rw [List.foldl_cons]
    rcases ih (max a y) with h1 | h1
    · rw [h1]
      rcases max_choice a y with h2 | h2
      · exact Or.inl h2
      · rw [h2]; exact Or.inr (List.mem_cons_self _ _)
    · exact Or.inr (List.mem_cons_of_mem _ h1)

/-- C6 (counterexample): in a workbook whose header has year columns 1991 and
1992 but whose only accepted row has a stored factor only for 1991,
`getLatestAvailableYear` returns 1992 - the header maximum - although the
maximum of the years with at least one stored factor is 1991. -/
theorem getLatestAvailableYear_counterexample :
    latestOf symNone wbGap = some 1992
    ∧ tableOf symNone wbGap 1992 "AAA" = none
    ∧ tableOf symNone wbGap 1991 "AAA" = some 5
    ∧ countriesOf symNone wbGap = [⟨"Aland", "AAA", none⟩]
    ∧ histOf symNone wbGap "AAA" = [⟨1991, 5⟩]
    ∧ yearsOf wbGap = [1991, 1992] := by
  refine ⟨by decide, by decide, by decide, by decide, by decide, by decide⟩

/-- C6 (amended): after a successful population, `getLatestAvailableYear`
returns the maximum of the year columns recognised in the header row
(four-digit years at least 1990), independently of whether any factor was
stored for that year; it is `none` exactly when population failed or no year
column qualified. -/
theorem getLatestAvailableYear_header_max (sym : String → Option String)
    (wb : List (String × List (List Cell))) :
    (latestOf sym wb = none ↔ yearsOf wb = [])
    ∧ (∀ y ∈ yearsOf wb, ∀ m, latestOf sym wb = some m → y ≤ m)
    ∧ (∀ m, latestOf sym wb = some m → m ∈ yearsOf wb) := by
  cases hctx : ctxOf wb with
  | none =>
    have hl : latestOf sym wb = none := (projections_of_ctx_none sym wb hctx).2.2.2.1
    have hy : yearsOf wb = [] := by unfold yearsOf; rw [hctx]
    refine ⟨by rw [hl, hy]; simp, ?_, ?_⟩
    · intro y hy2; rw [hy] at hy2; exact absurd hy2 (by simp)
    · intro m hm; rw [hl] at hm; exact absurd hm (by simp)
  | some c =>
    have hge := ctxOf_years_ge wb c hctx
    have hl := latestOf_eq sym wb c hctx
    have hy := yearsOf_eq wb c hctx
    rw [hl, hy]
    unfold latestOfYears
    refine ⟨?_, ?_, ?_⟩
    · constructor
      · intro h
        split at h
        · exact absurd h (by simp)
        · rename_i hpos
          cases hys : c.years with
          | nil => rfl
          | cons y ys =>
            have h1 : 1990 ≤ y := hge y (by rw [hys]; exact List.mem_cons_self _ _)
            have h2 : y ≤ c.years.foldl max 0 := mem_le_foldl_max c.years 0 y
              (by rw [hys]; exact List.mem_cons_self _ _)
            omega
      · intro h
        rw [h]
        simp
    · intro y hy2 m hm
      split at hm
      · injection hm with hm
        subst hm
        exact mem_le_foldl_max c.years 0 y hy2
      · exact absurd hm (by simp)
    · intro m hm
      split at hm
      · rename_i hpos
        injection hm with hm
        subst hm
        rcases foldl_max_mem c.years 0 with h1 | h1
        · omega
        · exact h1
      · exact absurd hm (by simp)

/-- C6 witness: in the gap workbook, 1991 is a header year, the latest year is
1992, the amended theorem yields both the bound and the membership of 1992
among the header years. -/
theorem getLatestAvailableYear_header_max_witness :
    latestOf symNone wbGap = some 1992
    ∧ 1991 ≤ 1992
    ∧ 1992 ∈ yearsOf wbGap := by
  have hm : latestOf symNone wbGap = some 1992 := by decide
  refine ⟨hm, ?_, ?_⟩
  · exact (getLatestAvailableYear_header_max symNone wbGap).2.1 1991 (by decide) 1992 hm
  · exact (getLatestAvailableYear_header_max symNone wbGap).2.2 1992 hm

/-- One year step does not change the country list. -/
theorem stepYear_countries (ctx : Ctx) (row : List Cell) (code : String) (a : ParseAcc)
    (y : Nat) : (stepYear ctx row code a y).countries = a.countries := by
  unfold stepYear
  split
  · rfl
  · rfl

/-- The year loop does not change the country list. -/
theorem foldYears_countries (ctx : Ctx) (row : List Cell) (code : String) :
    ∀ (ys : List Nat) (a : ParseAcc), (ys.foldl (stepYear ctx row code) a).countries = a.countries := by
  intro ys
  induction ys with
  | nil => intro a; rfl
  | cons y ys ih =>
    intro a
    rw [List.foldl_cons, ih, stepYear_countries]

/-- The country list after one row is the registration result when the row is
accepted, the unchanged list otherwise. -/
theorem processRow_countries (sym : String → Option String) (ctx : Ctx) (acc : ParseAcc)
    (row : List Cell) :
    (processRow sym ctx acc row).countries =
      if rowAccepted ctx row = true then (registerCountry sym ctx acc row).countries
      else acc.countries := by
  unfold processRow
  split
  · exact foldYears_countries ctx row (rowCode ctx row) ctx.years (registerCountry sym ctx acc row)
  · rfl

/-- Membership in the registered country list. -/
theorem registerCountry_mem (sym : String → Option String) (ctx : Ctx) (acc : ParseAcc)
    (row : List Cell) (c : CountryInfo)
    (h : c ∈ (registerCountry sym ctx acc row).countries) :
    c ∈ acc.countries ∨
      (hasCode acc.countries (rowCode ctx row) = false
        ∧ c = ⟨rowName ctx row, rowCode ctx row, sym (rowCode ctx row)⟩) := by
  unfold registerCountry at h
  split at h
  · exact Or.inl h
  · rename_i h2
    rw [Bool.not_eq_true] at h2
    rcases List.mem_append.mp h with h3 | h3
    · exact Or.inl h3
    · rcases List.mem_cons.mp h3 with h4 | h4
      · exact Or.inr ⟨h2, h4⟩
      · exact absurd h4 (by simp)

/-- Registration preserves code presence. -/
theorem registerCountry_hasCode (sym : String → Option String) (ctx : Ctx) (acc : ParseAcc)
    (row : List Cell) (code : String) (h : hasCode acc.countries code = true) :
    hasCode (registerCountry sym ctx acc row).countries code = true := by
  unfold registerCountry
  split
  · exact h
  · unfold hasCode at h ⊢
    rw [List.any_append]
    rw [h]
    rfl

/-- A row never removes a code from the country list. -/
theorem processRow_hasCode_mono (sym : String → Option String) (ctx : Ctx) (acc : ParseAcc)
    (row : List Cell) (code : String) (h : hasCode acc.countries code = true) :
    hasCode (processRow sym ctx acc row).countries code = true := by
  rw [processRow_countries]
  split
  · exact registerCountry_hasCode sym ctx acc row code h
  · exact h

/-- A hitting row makes its code present. -/
theorem hits_hasCode (sym : String → Option String) (ctx : Ctx) (acc : ParseAcc)
    (row : List Cell) (code : String) (h : hitsCode ctx code row = true) :
    hasCode (processRow sym ctx acc row).countries code = true := by
  unfold hitsCode at h
  rw [Bool.and_eq_true] at h
  obtain ⟨hacc, hcode⟩ := h
  rw [beq_iff_eq] at hcode
  rw [processRow_countries, if_pos hacc]
  unfold registerCountry
  split
  · rename_i h2
    rw [hcode] at h2
    exact h2
  · unfold hasCode
    rw [List.any_append]
    have : (List.any [(⟨rowName ctx row, rowCode ctx row, sym (rowCode ctx row)⟩ : CountryInfo)]
        fun c => c.code == code) = true := by
      simp [hcode]
    rw [this, Bool.or_true]

/-- Every country record of the row loop comes from the first accepted row
that carries its code: name and symbol are taken from that row. -/
theorem foldRows_countries_src (sym : String → Option String) (ctx : Ctx) :
    ∀ (rows : List (List Cell)) (acc : ParseAcc) (c : CountryInfo),
    c ∈ (rows.foldl (processRow sym ctx) acc).countries →
    c ∈ acc.countries ∨
      (hasCode acc.countries c.code = false
        ∧ ∃ r, rows.find? (hitsCode ctx c.code) = some r
            ∧ c = ⟨rowName ctx r, rowCode ctx r, sym (rowCode ctx r)⟩) := by
  intro rows
  induction rows with
  | nil => intro acc c h; exact Or.inl h
  | cons row rows ih =>
    intro acc c h
    rcases ih _ c h with h1 | h1
    · rw [processRow_countries] at h1
      split at h1
      · rename_i hacc
        rcases registerCountry_mem sym ctx acc row c h1 with h2 | h2
        · exact Or.inl h2
        · obtain ⟨hfresh, hrec⟩ := h2
          have hcc : c.code = rowCode ctx row := by rw [hrec]
          have hhits : hitsCode ctx c.code row = true := by
            unfold hitsCode
            rw [hacc, hcc]
            simp
          refine Or.inr ⟨by rw [hcc]; exact hfresh, row, ?_, hrec⟩
          rw [List.find?_cons_of_pos _ hhits]
      · exact Or.inl h1
    · obtain ⟨hfresh, r, hfind, hrec⟩ := h1
      have hnothit : hitsCode ctx c.code row = false := by
        cases hh : hitsCode ctx c.code row with
        | false => rfl
        | true =>
          have := hits_hasCode sym ctx acc row c.code hh
          rw [this] at hfresh
          exact absurd hfresh (by simp)
      have hfresh0 : hasCode acc.countries c.code = false := by
        cases hh : hasCode acc.countries c.code with
        | false => rfl
        | true =>
          have := processRow_hasCode_mono sym ctx acc row c.code hh
          rw [this] at hfresh
          exact absurd hfresh (by simp)
      refine Or.inr ⟨hfresh0, r, ?_, hrec⟩
      rw [List.find?_cons_of_neg _ (by rw [hnothit]; simp)]
      exact hfind

/-- Unpacking an accepted row: non-empty trimmed name, non-empty trimmed
code of exactly three characters, and a row long enough for both columns. -/
theorem rowAccepted_elim (ctx : Ctx) (row : List Cell) (h : rowAccepted ctx row = true) :
    rowName ctx row ≠ "" ∧ rowCode ctx row ≠ "" ∧ (rowCode ctx row).length = 3
      ∧ max ctx.nameIdx ctx.codeIdx < row.length := by
  unfold rowAccepted at h
  simp only [Bool.and_eq_true, bne_iff_ne, beq_iff_eq, decide_eq_true_eq, ne_eq] at h
  exact ⟨h.1.1.2, h.1.2, h.2, h.1.1.1⟩

/-- C8: every country record returned by `getCountries` has a non-empty
trimmed name and a three-character trimmed code, both taken from some
accepted data row (rows failing the validation contribute nothing), and the
returned list is sorted by name under the comparator that models
`localeCompare`. -/
theorem getCountries_filter_and_sort (sym : String → Option String)
    (wb : List (String × List (List Cell))) :
    (∀ c ∈ countriesOf sym wb, c.name ≠ "" ∧ c.code.length = 3
       ∧ ∃ row ∈ dataRowsOf wb, rowAcceptedOf wb row = true
           ∧ rowNameOf wb row = c.name ∧ rowCodeOf wb row = c.code)
    ∧ (countriesOf sym wb).Pairwise (fun a b => strLe a.name b.name = true) := by
  cases hctx : ctxOf wb with
  | none =>
    have hc : countriesOf sym wb = [] := (projections_of_ctx_none sym wb hctx).2.2.1
    rw [hc]
    exact ⟨fun c hcm => absurd hcm (by simp), by simp⟩
  | some c =>
    rw [countriesOf_eq sym wb c hctx]
    constructor
    · intro ci hci
      have hci2 : ci ∈ (runRows sym c).countries := (sortByName_perm _).mem_iff.mp hci
      have hsrc := foldRows_countries_src sym c c.dataRows initAcc ci hci2
      rcases hsrc with h1 | h1
      · exact absurd h1 (by simp [initAcc])
      · obtain ⟨_, r, hfind, hrec⟩ := h1
        have hrmem : r ∈ c.dataRows := List.mem_of_find?_eq_some hfind
        have hhits := List.find?_some hfind
        unfold hitsCode at hhits
        rw [Bool.and_eq_true] at hhits
        obtain ⟨haccr, hcoder⟩ := hhits
        have helim := rowAccepted_elim c r haccr
        have hname : ci.name = rowName c r := by rw [hrec]
        have hcode : ci.code = rowCode c r := by rw [hrec]
        refine ⟨by rw [hname]; exact helim.1, by rw [hcode]; exact helim.2.2.1, r, ?_, ?_, ?_, ?_⟩
        · rw [dataRowsOf_eq wb c hctx]; exact hrmem
        · rw [rowAcceptedOf_eq wb c hctx]; exact haccr
        · rw [rowNameOf_eq wb c hctx]; exact hname.symm
        · rw [rowCodeOf_eq wb c hctx]; exact hcode.symm
    · exact sortByName_pairwise _

/-- C8 witness: the worked example's single accepted row yields the record
for `Testland`, whose name is non-empty and whose code has three characters,
and the one-element country list is sorted. -/
theorem getCountries_filter_and_sort_witness :
    (⟨"Testland", "TST", none⟩ : CountryInfo) ∈ countriesOf symNone wbEx
    ∧ ("Testland" : String) ≠ ""
    ∧ ("TST" : String).length = 3
    ∧ (countriesOf symNone wbEx).Pairwise (fun a b => strLe a.name b.name = true) := by
  have hmem : (⟨"Testland", "TST", none⟩ : CountryInfo) ∈ countriesOf symNone wbEx := by decide
  have h := (getCountries_filter_and_sort symNone wbEx).1 _ hmem
  exact ⟨hmem, h.1, h.2.1, (getCountries_filter_and_sort symNone wbEx).2⟩

/-- The empty accumulator is well-formed. -/
theorem accWf_init : accWf initAcc := by
  intro code
  simp [initAcc, hasCode]

/-- Registration preserves accumulator well-formedness. -/
theorem registerCountry_wf (sym : String → Option String) (ctx : Ctx) (acc : ParseAcc)
    (row : List Cell) (h : accWf acc) : accWf (registerCountry sym ctx acc row) := by
  unfold registerCountry
  split
  · exact h
  · intro code
    show hasCode (acc.countries ++ [⟨rowName ctx row, rowCode ctx row, sym (rowCode ctx row)⟩]) code
      = ((initHist acc.hist (rowCode ctx row)) code).isSome
    unfold hasCode initHist
    rw [List.any_append]
    by_cases hc : code = rowCode ctx row
    · rw [if_pos hc]
      simp [hc]
    · rw [if_neg hc]
      have hb : (rowCode ctx row == code) = false := beq_eq_false_iff_ne.mpr (fun he => hc he.symm)
      simp only [List.any_cons, List.any_nil, hb, Bool.or_false]
      exact h code

/-- A year step preserves accumulator well-formedness. -/
theorem stepYear_wf (ctx : Ctx) (row : List Cell) (code0 : String) (a : ParseAcc) (y : Nat)
    (h : accWf a) : accWf (stepYear ctx row code0 a y) := by
  unfold stepYear
  split
  · exact h
  · intro code
    show hasCode a.countries code = ((pushHist a.hist code0 _) code).isSome
    unfold pushHist
    by_cases hc : code = code0
    · rw [if_pos hc, hc, h code0]
      cases a.hist code0 <;> rfl
    · rw [if_neg hc]
      exact h code

/-- The year loop preserves accumulator well-formedness. -/
theorem foldYears_wf (ctx : Ctx) (row : List Cell) (code0 : String) :
    ∀ (ys : List Nat) (a : ParseAcc), accWf a → accWf (ys.foldl (stepYear ctx row code0) a) := by
  intro ys
  induction ys with
  | nil => intro a h; exact h
  | cons y ys ih =>
    intro a h
    rw [List.foldl_cons]
    exact ih _ (stepYear_wf ctx row code0 a y h)

/-- The per-row sort preserves accumulator well-formedness. -/
theorem sortRowHist_wf (ctx : Ctx) (row : List Cell) (a : ParseAcc) (h : accWf a) :
    accWf (sortRowHist ctx row a) := by
  intro code
  show hasCode a.countries code = ((sortHistAt a.hist (rowCode ctx row)) code).isSome
  unfold sortHistAt
  by_cases hc : code = rowCode ctx row
  · rw [if_pos hc, hc, h (rowCode ctx row)]
    cases a.hist (rowCode ctx row) <;> rfl
  · rw [if_neg hc]
    exact h code

/-- A row preserves accumulator well-formedness. -/
theorem processRow_wf (sym : String → Option String) (ctx : Ctx) (acc : ParseAcc)
    (row : List Cell) (h : accWf acc) : accWf (processRow sym ctx acc row) := by
  unfold processRow
  split
  · exact sortRowHist_wf ctx row _
      (foldYears_wf ctx row (rowCode ctx row) ctx.years _ (registerCountry_wf sym ctx acc row h))
  · exact h

/-- The row loop preserves accumulator well-formedness. -/
theorem foldRows_wf (sym : String → Option String) (ctx : Ctx) :
    ∀ (rows : List (List Cell)) (acc : ParseAcc), accWf acc →
    accWf (rows.foldl (processRow sym ctx) acc) := by
  intro rows
  induction rows with
  | nil => intro acc h; exact h
  | cons r rows ih =>
    intro acc h
    rw [List.foldl_cons]
    exact ih _ (processRow_wf sym ctx acc r h)

/-- A year step never removes a historical data point. -/
theorem stepYear_hist_mem (ctx : Ctx) (row : List Cell) (code0 : String) (a : ParseAcc)
    (y : Nat) (code : String) (p : HistoricalDataPoint) (h : p ∈ (a.hist code).getD []) :
    p ∈ ((stepYear ctx row code0 a y).hist code).getD [] := by
  unfold stepYear
  split
  · exact h
  · show p ∈ ((pushHist a.hist code0 _) code).getD []
    unfold pushHist
    by_cases hc : code = code0
    · rw [if_pos hc]
      rw [hc] at h
      cases hh : a.hist code0 with
      | none => rw [hh] at h; exact absurd h (by simp)
      | some l =>
        rw [hh] at h
        exact List.mem_append_left _ h
    · rw [if_neg hc]
      exact h

/-- The year loop never removes a historical data point. -/
theorem foldYears_hist_mem (ctx : Ctx) (row : List Cell) (code0 : String) :
    ∀ (ys : List Nat) (a : ParseAcc) (code : String) (p : HistoricalDataPoint),
    p ∈ (a.hist code).getD [] →
    p ∈ ((ys.foldl (stepYear ctx row code0) a).hist code).getD [] := by
  intro ys
  induction ys with
  | nil => intro a code p h; exact h
  | cons y ys ih =>
    intro a code p h
    rw [List.foldl_cons]
    exact ih _ code p (stepYear_hist_mem ctx row code0 a y code p h)

/-- Sorting one country's series never removes a historical data point. -/
theorem sortHistAt_hist_mem (hfun : String → Option (List HistoricalDataPoint))
    (code0 code : String) (p : HistoricalDataPoint) (h : p ∈ (hfun code).getD []) :
    p ∈ ((sortHistAt hfun code0) code).getD [] := by
  unfold sortHistAt
  by_cases hc : code = code0
  · rw [if_pos hc]
    rw [hc] at h
    cases hh : hfun code0 with
    | none => rw [hh] at h; exact absurd h (by simp)
    | some l =>
      rw [hh] at h
      exact (sortByYear_perm l).mem_iff.mpr h
  · rw [if_neg hc]
    exact h

/-- A row never removes a historical data point (well-formedness rules out the
re-initialisation case). -/
theorem processRow_hist_mem (sym : String → Option String) (ctx : Ctx) (acc : ParseAcc)
    (row : List Cell) (code : String) (p : HistoricalDataPoint) (hwf : accWf acc)
    (h : p ∈ (acc.hist code).getD []) :
    p ∈ ((processRow sym ctx acc row).hist code).getD [] := by
  unfold processRow
  split
  · apply sortHistAt_hist_mem
    apply foldYears_hist_mem
    unfold registerCountry
    split
    · exact h
    · rename_i hfresh
      rw [Bool.not_eq_true] at hfresh
      show p ∈ ((initHist acc.hist (rowCode ctx row)) code).getD []
      unfold initHist
      by_cases hc : code = rowCode ctx row
      · rw [hc] at h
        have hw := hwf (rowCode ctx row)
        rw [hfresh] at hw
        cases hh : acc.hist (rowCode ctx row) with
        | none => rw [hh] at h; exact absurd h (by simp)
        | some l => rw [hh] at hw; exact absurd hw.symm (by simp)
      · rw [if_neg hc]
        exact h
  · exact h

/-- The row loop never removes a historical data point. -/
theorem foldRows_hist_mem (sym : String → Option String) (ctx : Ctx) :
    ∀ (rows : List (List Cell)) (acc : ParseAcc), accWf acc →
    ∀ (code : String) (p : HistoricalDataPoint), p ∈ (acc.hist code).getD [] →
    p ∈ ((rows.foldl (processRow sym ctx) acc).hist code).getD [] := by
  intro rows
  induction rows with
  | nil => intro acc _ code p h; exact h
  | cons r rows ih =>
    intro acc hwf code p h
    rw [List.foldl_cons]
    exact ih _ (processRow_wf sym ctx acc r hwf) code p
      (processRow_hist_mem sym ctx acc r code p hwf h)

/-- A year step never erases a table entry. -/
theorem stepYear_ppp_mono (ctx : Ctx) (row : List Cell) (code0 : String) (a : ParseAcc)
    (y0 y : Nat) (code : String) (h : (a.ppp y code).isSome = true) :
    ((stepYear ctx row code0 a y0).ppp y code).isSome = true := by
  unfold stepYear
  split
  · exact h
  · show ((setPPP a.ppp y0 code0 _) y code).isSome = true
    unfold setPPP
    split
    · rfl
    · exact h

/-- The year loop never erases a table entry. -/
theorem foldYears_ppp_mono (ctx : Ctx) (row : List Cell) (code0 : String) :
    ∀ (ys : List Nat) (a : ParseAcc) (y : Nat) (code : String),
    (a.ppp y code).isSome = true →
    ((ys.foldl (stepYear ctx row code0) a).ppp y code).isSome = true := by
  intro ys
  induction ys with
  | nil => intro a y code h; exact h
  | cons y0 ys ih =>
    intro a y code h
    rw [List.foldl_cons]
    exact ih _ y code (stepYear_ppp_mono ctx row code0 a y0 y code h)

/-- A row never erases a table entry. -/
theorem processRow_ppp_mono (sym : String → Option String) (ctx : Ctx) (acc : ParseAcc)
    (row : List Cell) (y : Nat) (code : String) (h : (acc.ppp y code).isSome = true) :
    ((processRow sym ctx acc row).ppp y code).isSome = true := by
  unfold processRow
  split
  · show ((ctx.years.foldl (stepYear ctx row (rowCode ctx row))
        (registerCountry sym ctx acc row)).ppp y code).isSome = true
    apply foldYears_ppp_mono
    rw [registerCountry_ppp]
    exact h
  · exact h

/-- The row loop never erases a table entry. -/
theorem foldRows_ppp_mono (sym : String → Option String) (ctx : Ctx) :
    ∀ (rows : List (List Cell)) (acc : ParseAcc) (y : Nat) (code : String),
    (acc.ppp y code).isSome = true →
    ((rows.foldl (processRow sym ctx) acc).ppp y code).isSome = true := by
  intro rows
  induction rows with
  | nil => intro acc y code h; exact h
  | cons r rows ih =>
    intro acc y code h
    rw [List.foldl_cons]
    exact ih _ y code (processRow_ppp_mono sym ctx acc r y code h)

/-- The year loop appends exactly the row's valid data points, in year-column
order, to the row's historical array. -/
theorem foldYears_hist_concat (ctx : Ctx) (row : List Cell) (code0 : String) :
    ∀ (ys : List Nat) (a : ParseAcc) (l : List HistoricalDataPoint),
    a.hist code0 = some l →
    (ys.foldl (stepYear ctx row code0) a).hist code0 =
      some (l ++ ys.filterMap (fun y => (ptOf ctx row y).map (fun q => ⟨y, q⟩))) := by
  intro ys
  induction ys with
  | nil => intro a l h; simpa using h
  | cons y ys ih =>
    intro a l h
    rw [List.foldl_cons]
    cases hpt : ptOf ctx row y with
    | none =>
      have ha : stepYear ctx row code0 a y = a := by
        unfold stepYear
        rw [hpt]
      rw [ha, ih a l h, List.filterMap_cons, hpt]
      rfl
    | some q =>
      have ha : stepYear ctx row code0 a y =
          { a with ppp := setPPP a.ppp y code0 q, hist := pushHist a.hist code0 ⟨y, q⟩ } := by
        unfold stepYear
        rw [hpt]
      have h2 : (pushHist a.hist code0 ⟨y, q⟩) code0 = some (l ++ [⟨y, q⟩]) := by
        unfold pushHist
        rw [if_pos rfl, h]
        rfl
      rw [ha, ih _ (l ++ [⟨y, q⟩]) h2, List.filterMap_cons, hpt]
      rw [List.append_assoc]
      rfl

/-- The year loop installs a table entry for every year of the column list
whose cell parses. -/
theorem foldYears_ppp_set (ctx : Ctx) (row : List Cell) (code0 : String) :
    ∀ (ys : List Nat) (a : ParseAcc) (y : Nat), y ∈ ys → (ptOf ctx row y).isSome = true →
    ((ys.foldl (stepYear ctx row code0) a).ppp y code0).isSome = true := by
  intro ys
  induction ys with
  | nil => intro a y hy; exact absurd hy (by simp)
  | cons y0 ys ih =>
    intro a y hy hpt
    rw [List.foldl_cons]
    rcases List.mem_cons.mp hy with h1 | h1
    · subst h1
      cases hq : ptOf ctx row y with
      | none => rw [hq] at hpt; exact absurd hpt (by simp)
      | some q =>
        have hset : ((stepYear ctx row code0 a y).ppp y code0).isSome = true := by
          unfold stepYear
          rw [hq]
          show ((setPPP a.ppp y code0 q) y code0).isSome = true
          unfold setPPP
          rw [if_pos ⟨rfl, rfl⟩]
          rfl
        exact foldYears_ppp_mono ctx row code0 ys _ y code0 hset
    · exact ih _ y h1 hpt

/-- Unpacking membership in a row's valid data points. -/
theorem rowPoints_elim (ctx : Ctx) (row : List Cell) (p : HistoricalDataPoint)
    (h : p ∈ rowPoints ctx row) :
    p.year ∈ ctx.years ∧ ptOf ctx row p.year = some p.pppConversionFactor := by
  unfold rowPoints at h
  rw [List.mem_filterMap] at h
  obtain ⟨y, hy, hmk⟩ := h
  cases hpt : ptOf ctx row y with
  | none => rw [hpt] at hmk; exact absurd hmk (by simp)
  | some q =>
    rw [hpt] at hmk
    cases p with
    | mk py pq =>
      simp only [Option.map_some', Option.some.injEq, HistoricalDataPoint.mk.injEq] at hmk
      obtain ⟨hy2, hq2⟩ := hmk
      subst hy2
      subst hq2
      exact ⟨hy, hpt⟩

/-- An accepted row installs each of its valid data points into its country's
historical array and the year table. -/
theorem processRow_establish (sym : String → Option String) (ctx : Ctx) (acc : ParseAcc)
    (row : List Cell) (hwf : accWf acc) (hacc : rowAccepted ctx row = true)
    (p : HistoricalDataPoint) (hp : p ∈ rowPoints ctx row) :
    p ∈ ((processRow sym ctx acc row).hist (rowCode ctx row)).getD []
    ∧ ((processRow sym ctx acc row).ppp p.year (rowCode ctx row)).isSome = true := by
  have hpe := rowPoints_elim ctx row p hp
  unfold processRow
  rw [if_pos hacc]
  constructor
  · apply sortHistAt_hist_mem
    obtain ⟨l0, hl0⟩ : ∃ l0, (registerCountry sym ctx acc row).hist (rowCode ctx row) = some l0 := by
      unfold registerCountry
      split
      · rename_i hhas
        have hw := hwf (rowCode ctx row)
        rw [hhas] at hw
        cases hh : acc.hist (rowCode ctx row) with
        | none => rw [hh] at hw; exact absurd hw.symm (by simp)
        | some l => exact ⟨l, rfl⟩
      · exact ⟨[], by unfold initHist; simp⟩
    show p ∈ ((ctx.years.foldl (stepYear ctx row (rowCode ctx row))
        (registerCountry sym ctx acc row)).hist (rowCode ctx row)).getD []
    rw [foldYears_hist_concat ctx row (rowCode ctx row) ctx.years _ l0 hl0]
    exact List.mem_append_right _ hp
  · show ((ctx.years.foldl (stepYear ctx row (rowCode ctx row))
        (registerCountry sym ctx acc row)).ppp p.year (rowCode ctx row)).isSome = true
    apply foldYears_ppp_set ctx row (rowCode ctx row) ctx.years _ p.year hpe.1
    rw [hpe.2]
    rfl

/-- Every valid data point of every accepted row - including rows whose code
duplicates an earlier row's code - ends up in the historical array and the
year table of that code. -/
theorem foldRows_merge (sym : String → Option String) (ctx : Ctx) :
    ∀ (rows : List (List Cell)) (acc : ParseAcc), accWf acc →
    ∀ row ∈ rows, rowAccepted ctx row = true → ∀ p ∈ rowPoints ctx row,
    p ∈ ((rows.foldl (processRow sym ctx) acc).hist (rowCode ctx row)).getD []
    ∧ ((rows.foldl (processRow sym ctx) acc).ppp p.year (rowCode ctx row)).isSome = true := by
  intro rows
  induction rows with
  | nil => intro acc _ row hr; exact absurd hr (by simp)
  | cons r0 rows ih =>
    intro acc hwf row hr hacc p hp
    rw [List.foldl_cons]
    rcases List.mem_cons.mp hr with h1 | h1
    · subst h1
      have hest := processRow_establish sym ctx acc row hwf hacc p hp
      constructor
      · exact foldRows_hist_mem sym ctx rows _ (processRow_wf sym ctx acc row hwf)
          (rowCode ctx row) p hest.1
      · exact foldRows_ppp_mono sym ctx rows _ p.year (rowCode ctx row) hest.2
    · exact ih (processRow sym ctx acc r0) (processRow_wf sym ctx acc r0 hwf) row h1 hacc p hp

/-- Registration preserves distinctness of registered codes. -/
theorem registerCountry_codes_nodup (sym : String → Option String) (ctx : Ctx)
    (acc : ParseAcc) (row : List Cell)
    (h : (acc.countries.map (fun c => c.code)).Nodup) :
    ((registerCountry sym ctx acc row).countries.map (fun c => c.code)).Nodup := by
  unfold registerCountry
  split
  · exact h
  · rename_i hfresh
    rw [Bool.not_eq_true] at hfresh
    rw [List.map_append]
    rw [List.nodup_append]
    refine ⟨h, by simp, ?_⟩
    intro a ha hb
    simp only [List.map_cons, List.map_nil, List.mem_singleton] at hb
    subst hb
    rw [List.mem_map] at ha
    obtain ⟨ci, hci, hcode⟩ := ha
    have : hasCode acc.countries (rowCode ctx row) = true := by
      unfold hasCode
      rw [List.any_eq_true]
      exact ⟨ci, hci, beq_iff_eq.mpr hcode⟩
    rw [this] at hfresh
    exact absurd hfresh (by simp)

/-- A row preserves distinctness of registered codes. -/
theorem processRow_codes_nodup (sym : String → Option String) (ctx : Ctx) (acc : ParseAcc)
    (row : List Cell) (h : (acc.countries.map (fun c => c.code)).Nodup) :
    ((processRow sym ctx acc row).countries.map (fun c => c.code)).Nodup := by
  rw [processRow_countries]
  split
  · exact registerCountry_codes_nodup sym ctx acc row h
  · exact h

/-- The row loop produces countries with pairwise-distinct codes. -/
theorem foldRows_codes_nodup (sym : String → Option String) (ctx : Ctx) :
    ∀ (rows : List (List Cell)) (acc : ParseAcc),
    (acc.countries.map (fun c => c.code)).Nodup →
    (((rows.foldl (processRow sym ctx) acc).countries.map (fun c => c.code))).Nodup := by
  intro rows
  induction rows with
  | nil => intro acc h; exact h
  | cons r rows ih =>
    intro acc h
    rw [List.foldl_cons]
    exact ih _ (processRow_codes_nodup sym ctx acc r h)

/-- C5 (counterexample): under the duplicated code `AAA` the later row is NOT
discarded: the country metadata keeps the first row's name `First`, but the
second row's values are merged - its 1991 value 3 overwrites the first row's
2 in the year table, its 1992 value 7 is added, and the historical series
keeps the points of both rows. -/
theorem duplicate_codes_counterexample :
    countriesOf symNone wbDup = [⟨"First", "AAA", none⟩]
    ∧ tableOf symNone wbDup 1991 "AAA" = some 3
    ∧ tableOf symNone wbDup 1992 "AAA" = some 7
    ∧ histOf symNone wbDup "AAA" = [⟨1991, 2⟩, ⟨1991, 3⟩, ⟨1992, 7⟩]
    ∧ rowAcceptedOf wbDup wbDupRow2 = true := by
  refine ⟨by decide, by decide, by decide, by decide, by decide⟩

/-- C5 (amended): for every parsed sheet, country codes are unique in the
returned country list and each record's name and code come from the first
accepted row carrying that code (first-seen row authoritative for metadata);
but later rows with a duplicate code are NOT discarded: every valid year cell
of every accepted row - duplicate-code rows included - is merged into the
historical series of that code and installs an entry in the year-indexed
table. -/
theorem duplicate_codes_merge (sym : String → Option String)
    (wb : List (String × List (List Cell))) :
    ((countriesOf sym wb).map (fun c => c.code)).Nodup
    ∧ (∀ ci ∈ countriesOf sym wb, ∃ r, firstRowFor wb ci.code = some r
         ∧ rowNameOf wb r = ci.name ∧ rowCodeOf wb r = ci.code)
    ∧ (∀ row ∈ dataRowsOf wb, rowAcceptedOf wb row = true →
        ∀ p ∈ rowPointsOf wb row,
          p ∈ histOf sym wb (rowCodeOf wb row)
          ∧ (tableOf sym wb p.year (rowCodeOf wb row)).isSome = true) := by
  cases hctx : ctxOf wb with
  | none =>
    have hc : countriesOf sym wb = [] := (projections_of_ctx_none sym wb hctx).2.2.1
    have hd : dataRowsOf wb = [] := by unfold dataRowsOf; rw [hctx]
    rw [hc, hd]
    exact ⟨by simp, fun ci hci => absurd hci (by simp), fun row hr => absurd hr (by simp)⟩
  | some c =>
    refine ⟨?_, ?_, ?_⟩
    · rw [countriesOf_eq sym wb c hctx]
      have hn := foldRows_codes_nodup sym c c.dataRows initAcc (by simp [initAcc])
      have hperm := (sortByName_perm (runRows sym c).countries).map (fun ci => ci.code)
      exact hperm.nodup_iff.mpr hn
    · intro ci hci
      rw [countriesOf_eq sym wb c hctx] at hci
      have hci2 : ci ∈ (runRows sym c).countries := (sortByName_perm _).mem_iff.mp hci
      rcases foldRows_countries_src sym c c.dataRows initAcc ci hci2 with h1 | h1
      · exact absurd h1 (by simp [initAcc])
      · obtain ⟨_, r, hfind, hrec⟩ := h1
        refine ⟨r, ?_, ?_, ?_⟩
        · unfold firstRowFor
          rw [hctx]
          exact hfind
        · rw [rowNameOf_eq wb c hctx, hrec]
        · rw [rowCodeOf_eq wb c hctx, hrec]
    · intro row hr hacc p hp
      rw [dataRowsOf_eq wb c hctx] at hr
      rw [rowAcceptedOf_eq wb c hctx] at hacc
      rw [rowPointsOf_eq wb c hctx] at hp
      have hm := foldRows_merge sym c c.dataRows initAcc accWf_init row hr hacc p hp
      constructor
      · rw [histOf_eq sym wb c hctx, rowCodeOf_eq wb c hctx]
        exact hm.1
      · rw [tableOf_eq sym wb c hctx, rowCodeOf_eq wb c hctx]
        exact hm.2

/-- C5 witness: applying the amended theorem to the duplicate workbook at the
second `AAA` row and its 1992 point. -/
theorem duplicate_codes_merge_witness :
    ((countriesOf symNone wbDup).map (fun c => c.code)).Nodup
    ∧ (⟨1992, 7⟩ : HistoricalDataPoint) ∈ histOf symNone wbDup (rowCodeOf wbDup wbDupRow2)
    ∧ (tableOf symNone wbDup 1992 (rowCodeOf wbDup wbDupRow2)).isSome = true := by
  have h := duplicate_codes_merge symNone wbDup
  have h2 := h.2.2 wbDupRow2 (by decide) (by decide) ⟨1992, 7⟩ (by decide)
  exact ⟨h.1, h2.1, h2.2⟩

/-- A year step leaves other codes' series untouched. -/
theorem stepYear_hist_frame (ctx : Ctx) (row : List Cell) (code0 : String) (a : ParseAcc)
    (y : Nat) (code : String) (h : code ≠ code0) :
    (stepYear ctx row code0 a y).hist code = a.hist code := by
  unfold stepYear
  split
  · rfl
  · show (pushHist a.hist code0 _) code = a.hist code
    unfold pushHist
    rw [if_neg h]

/-- A year step leaves other codes' table columns untouched. -/
theorem stepYear_ppp_frame (ctx : Ctx) (row : List Cell) (code0 : String) (a : ParseAcc)
    (y0 y : Nat) (code : String) (h : code ≠ code0) :
    (stepYear ctx row code0 a y0).ppp y code = a.ppp y code := by
  unfold stepYear
  split
  · rfl
  · show (setPPP a.ppp y0 code0 _) y code = a.ppp y code
    unfold setPPP
    rw [if_neg (fun hc => h hc.2)]

/-- A year step leaves other years' table rows untouched. -/
theorem stepYear_ppp_frame_year (ctx : Ctx) (row : List Cell) (code0 : String) (a : ParseAcc)
    (y0 y : Nat) (code : String) (h : y ≠ y0) :
    (stepYear ctx row code0 a y0).ppp y code = a.ppp y code := by
  unfold stepYear
  split
  · rfl
  · show (setPPP a.ppp y0 code0 _) y code = a.ppp y code
    unfold setPPP
    rw [if_neg (fun hc => h hc.1)]

/-- The year loop leaves other codes untouched. -/
theorem foldYears_frame (ctx : Ctx) (row : List Cell) (code0 : String) :
    ∀ (ys : List Nat) (a : ParseAcc) (code : String), code ≠ code0 →
    (ys.foldl (stepYear ctx row code0) a).hist code = a.hist code
    ∧ ∀ y, (ys.foldl (stepYear ctx row code0) a).ppp y code = a.ppp y code := by
  intro ys
  induction ys with
  | nil => intro a code _; exact ⟨rfl, fun _ => rfl⟩
  | cons y0 ys ih =>
    intro a code h
    rw [List.foldl_cons]
    obtain ⟨ih1, ih2⟩ := ih (stepYear ctx row code0 a y0) code h
    refine ⟨?_, fun y => ?_⟩
    · rw [ih1, stepYear_hist_frame ctx row code0 a y0 code h]
    · rw [ih2 y, stepYear_ppp_frame ctx row code0 a y0 y code h]

/-- Sorting one code's series leaves other codes untouched. -/
theorem sortHistAt_frame (hfun : String → Option (List HistoricalDataPoint))
    (code0 code : String) (h : code ≠ code0) : (sortHistAt hfun code0) code = hfun code := by
  unfold sortHistAt
  rw [if_neg h]

/-- Registration leaves other codes' series untouched. -/
theorem registerCountry_hist_frame (sym : String → Option String) (ctx : Ctx) (acc : ParseAcc)
    (row : List Cell) (code : String) (h : code ≠ rowCode ctx row) :
    (registerCountry sym ctx acc row).hist code = acc.hist code := by
  unfold registerCountry
  split
  · rfl
  · show (initHist acc.hist (rowCode ctx row)) code = acc.hist code
    unfold initHist
    rw [if_neg h]

/-- A row that does not hit a code leaves that code's series and table column
untouched. -/
theorem processRow_frame (sym : String → Option String) (ctx : Ctx) (acc : ParseAcc)
    (row : List Cell) (code : String) (h : hitsCode ctx code row = false) :
    (processRow sym ctx acc row).hist code = acc.hist code
    ∧ ∀ y, (processRow sym ctx acc row).ppp y code = acc.ppp y code := by
  unfold processRow
  split
  · rename_i haccr
    have h2 : (rowCode ctx row == code) = false := by
      unfold hitsCode at h
      rw [haccr] at h
      simpa using h
    have hne : code ≠ rowCode ctx row := by
      intro he
      rw [he] at h2
      simp at h2
    constructor
    · show (sortHistAt (ctx.years.foldl (stepYear ctx row (rowCode ctx row))
          (registerCountry sym ctx acc row)).hist (rowCode ctx row)) code = acc.hist code
      rw [sortHistAt_frame _ _ _ hne]
      rw [(foldYears_frame ctx row (rowCode ctx row) ctx.years _ code hne).1]
      exact registerCountry_hist_frame sym ctx acc row code hne
    · intro y
      show (ctx.years.foldl (stepYear ctx row (rowCode ctx row))
          (registerCountry sym ctx acc row)).ppp y code = acc.ppp y code
      rw [(foldYears_frame ctx row (rowCode ctx row) ctx.years _ code hne).2 y]
      rw [registerCountry_ppp]
  · exact ⟨rfl, fun _ => rfl⟩

/-- The row loop leaves a code untouched when no row hits it. -/
theorem foldRows_frame (sym : String → Option String) (ctx : Ctx) (code : String) :
    ∀ (rows : List (List Cell)) (acc : ParseAcc),
    (∀ r ∈ rows, hitsCode ctx code r = false) →
    (rows.foldl (processRow sym ctx) acc).hist code = acc.hist code
    ∧ ∀ y, (rows.foldl (processRow sym ctx) acc).ppp y code = acc.ppp y code := by
  intro rows
  induction rows with
  | nil => intro acc _; exact ⟨rfl, fun _ => rfl⟩
  | cons r0 rows ih =>
    intro acc hno
    rw [List.foldl_cons]
    have hr0 := hno r0 (List.mem_cons_self _ _)
    obtain ⟨ih1, ih2⟩ := ih (processRow sym ctx acc r0)
      (fun r hr => hno r (List.mem_cons_of_mem _ hr))
    have hf := processRow_frame sym ctx acc r0 code hr0
    exact ⟨by rw [ih1, hf.1], fun y => by rw [ih2 y, hf.2 y]⟩

/-- Full characterisation of one code's table column after the year loop,
when the year columns are pairwise distinct. -/
theorem foldYears_ppp_char (ctx : Ctx) (row : List Cell) (code0 : String) :
    ∀ (ys : List Nat), ys.Nodup → ∀ (a : ParseAcc) (y : Nat),
    (ys.foldl (stepYear ctx row code0) a).ppp y code0 =
      if y ∈ ys then (ptOf ctx row y).or (a.ppp y code0) else a.ppp y code0 := by
  intro ys
  induction ys with
  | nil => intro _ a y; simp
  | cons y0 ys ih =>
    intro hnd a y
    obtain ⟨hy0, hnd2⟩ := List.nodup_cons.mp hnd
    rw [List.foldl_cons, ih hnd2]
    by_cases hmem : y ∈ ys
    · rw [if_pos hmem, if_pos (List.mem_cons_of_mem _ hmem)]
      cases hq : ptOf ctx row y with
      | some q => rfl
      | none =>
        have hne : y ≠ y0 := fun he => hy0 (he ▸ hmem)
        show Option.or none ((stepYear ctx row code0 a y0).ppp y code0) =
          Option.or none (a.ppp y code0)
        rw [stepYear_ppp_frame_year ctx row code0 a y0 y code0 hne]
    · rw [if_neg hmem]
      by_cases hy : y = y0
      · subst hy
        rw [if_pos (List.mem_cons_self _ _)]
        cases hq : ptOf ctx row y with
        | none =>
          have ha : stepYear ctx row code0 a y = a := by
            unfold stepYear
            rw [hq]
          rw [ha]
          rfl
        | some q =>
          have ha : (stepYear ctx row code0 a y).ppp y code0 = some q := by
            unfold stepYear
            rw [hq]
            show (setPPP a.ppp y code0 q) y code0 = some q
            unfold setPPP
            rw [if_pos ⟨rfl, rfl⟩]
          rw [ha]
          rfl
      · rw [if_neg (by simp [hy, hmem])]
        exact stepYear_ppp_frame_year ctx row code0 a y0 y code0 hy

/-- A hitting row over a fresh code produces exactly that row's sorted points
and that row's table column. -/
theorem processRow_hit_char (sym : String → Option String) (ctx : Ctx) (acc : ParseAcc)
    (row : List Cell) (code : String) (hwf : accWf acc)
    (hhits : hitsCode ctx code row = true) (hfresh : acc.hist code = none)
    (hfreshp : ∀ y, acc.ppp y code = none) (hnd : ctx.years.Nodup) :
    (processRow sym ctx acc row).hist code = some (sortByYear (rowPoints ctx row))
    ∧ ∀ y, (processRow sym ctx acc row).ppp y code = rowTable ctx row y := by
  unfold hitsCode at hhits
  rw [Bool.and_eq_true] at hhits
  obtain ⟨haccr, hbeq⟩ := hhits
  rw [beq_iff_eq] at hbeq
  have hfreshHas : hasCode acc.countries code = false := by
    rw [hwf code, hfresh]
    rfl
  unfold processRow
  rw [if_pos haccr]
  have hreg1 : (registerCountry sym ctx acc row).hist code = some [] := by
    unfold registerCountry
    rw [if_neg (by rw [hbeq, hfreshHas]; simp)]
    show (initHist acc.hist (rowCode ctx row)) code = some []
    unfold initHist
    rw [if_pos hbeq.symm]
  constructor
  · show (sortHistAt (ctx.years.foldl (stepYear ctx row (rowCode ctx row))
        (registerCountry sym ctx acc row)).hist (rowCode ctx row)) code
      = some (sortByYear (rowPoints ctx row))
    have hcc := foldYears_hist_concat ctx row (rowCode ctx row) ctx.years
      (registerCountry sym ctx acc row) [] (by rw [hbeq]; exact hreg1)
    unfold sortHistAt
    rw [if_pos hbeq.symm, hcc]
    rw [List.nil_append]
    rfl
  · intro y
    show (ctx.years.foldl (stepYear ctx row (rowCode ctx row))
        (registerCountry sym ctx acc row)).ppp y code = rowTable ctx row y
    rw [← hbeq]
    rw [foldYears_ppp_char ctx row (rowCode ctx row) ctx.years hnd _ y]
    rw [registerCountry_ppp]
    rw [hbeq, hfreshp y]
    unfold rowTable
    split
    · cases ptOf ctx row y <;> rfl
    · rfl

/-- Behaviour of the whole row loop on one code, by how many rows hit it:
none (the code stays absent) or exactly one (the code carries that row's
sorted points and table column). -/
theorem foldRows_char (sym : String → Option String) (ctx : Ctx)
    (hnd : ctx.years.Nodup) (code : String) :
    ∀ (rows : List (List Cell)) (acc : ParseAcc), accWf acc → acc.hist code = none →
    (∀ y, acc.ppp y code = none) →
    ((rows.filter (hitsCode ctx code) = [] →
       (rows.foldl (processRow sym ctx) acc).hist code = none
       ∧ ∀ y, (rows.foldl (processRow sym ctx) acc).ppp y code = none)
     ∧ ∀ r, rows.filter (hitsCode ctx code) = [r] →
       (rows.foldl (processRow sym ctx) acc).hist code = some (sortByYear (rowPoints ctx r))
       ∧ ∀ y, (rows.foldl (processRow sym ctx) acc).ppp y code = rowTable ctx r y) := by
  intro rows
  induction rows with
  | nil =>
    intro acc _ hfresh hfreshp
    exact ⟨fun _ => ⟨hfresh, hfreshp⟩, fun r hr => absurd hr (by simp)⟩
  | cons r0 rows ih =>
    intro acc hwf hfresh hfreshp
    rw [List.foldl_cons]
    cases hh : hitsCode ctx code r0 with
    | true =>
      have hfilter : (r0 :: rows).filter (hitsCode ctx code)
          = r0 :: rows.filter (hitsCode ctx code) := List.filter_cons_of_pos hh
      constructor
      · intro hnil
        rw [hfilter] at hnil
        exact absurd hnil (by simp)
      · intro r hr
        rw [hfilter, List.cons.injEq] at hr
        obtain ⟨hr0, hrest⟩ := hr
        subst hr0
        have hchar := processRow_hit_char sym ctx acc r0 code hwf hh hfresh hfreshp hnd
        have hnone : ∀ r2 ∈ rows, hitsCode ctx code r2 = false := by
          intro r2 hr2
          have hnot := List.filter_eq_nil_iff.mp hrest r2 hr2
          cases h3 : hitsCode ctx code r2 with
          | false => rfl
          | true => exact absurd h3 hnot
        have hframe := foldRows_frame sym ctx code rows (processRow sym ctx acc r0) hnone
        exact ⟨by rw [hframe.1]; exact hchar.1, fun y => by rw [hframe.2 y]; exact hchar.2 y⟩
    | false =>
      have hfilter : (r0 :: rows).filter (hitsCode ctx code)
          = rows.filter (hitsCode ctx code) := List.filter_cons_of_neg (by simp [hh])
      have hframe := processRow_frame sym ctx acc r0 code hh
      have ihh := ih (processRow sym ctx acc r0) (processRow_wf sym ctx acc r0 hwf)
        (by rw [hframe.1]; exact hfresh) (fun y => by rw [hframe.2 y]; exact hfreshp y)
      rw [hfilter]
      exact ihh

/-- When the accepted rows carry pairwise-distinct codes, at most one row hits
any given code. -/
theorem hits_filter_short (ctx : Ctx) :
    ∀ (rows : List (List Cell)),
    ((rows.filter (fun r => rowAccepted ctx r)).map (fun r => rowCode ctx r)).Nodup →
    ∀ code : String, rows.filter (hitsCode ctx code) = []
      ∨ ∃ r, rows.filter (hitsCode ctx code) = [r] := by
  intro rows
  induction rows with
  | nil => intro _ code; exact Or.inl rfl
  | cons r0 rows ih =>
    intro hnd code
    cases haccr : rowAccepted ctx r0 with
    | false =>
      have h1 : (r0 :: rows).filter (fun r => rowAccepted ctx r)
          = rows.filter (fun r => rowAccepted ctx r) := List.filter_cons_of_neg (by simp [haccr])
      have h2 : (r0 :: rows).filter (hitsCode ctx code)
          = rows.filter (hitsCode ctx code) := by
        refine List.filter_cons_of_neg ?_
        unfold hitsCode
        rw [haccr]
        simp
      rw [h2]
      rw [h1] at hnd
      exact ih hnd code
    | true =>
      have h1 : (r0 :: rows).filter (fun r => rowAccepted ctx r)
          = r0 :: rows.filter (fun r => rowAccepted ctx r) :=
        List.filter_cons_of_pos (by simp [haccr])
      rw [h1, List.map_cons, List.nodup_cons] at hnd
      obtain ⟨hnotin, hnd2⟩ := hnd
      cases hbeq : rowCode ctx r0 == code with
      | false =>
        have h2 : (r0 :: rows).filter (hitsCode ctx code)
            = rows.filter (hitsCode ctx code) := by
          refine List.filter_cons_of_neg ?_
          unfold hitsCode
          rw [haccr, hbeq]
          simp
        rw [h2]
        exact ih hnd2 code
      | true =>
        rw [beq_iff_eq] at hbeq
        have h2 : (r0 :: rows).filter (hitsCode ctx code)
            = r0 :: rows.filter (hitsCode ctx code) := by
          refine List.filter_cons_of_pos ?_
          unfold hitsCode
          rw [haccr, beq_iff_eq.mpr hbeq]
          rfl
        rw [h2]
        right
        refine ⟨r0, ?_⟩
        have h3 : rows.filter (hitsCode ctx code) = [] := by
          rw [List.filter_eq_nil_iff]
          intro r2 hr2 hhit
          unfold hitsCode at hhit
          rw [Bool.and_eq_true, beq_iff_eq] at hhit
          apply hnotin
          rw [List.mem_map]
          refine ⟨r2, ?_, ?_⟩
          · rw [List.mem_filter]
            exact ⟨hr2, hhit.1⟩
          · rw [hhit.2, hbeq]
        rw [h3]

/-- Years of produced data points come from the year-column list. -/
theorem filterMap_year_mem (ctx : Ctx) (row : List Cell) :
    ∀ (ys : List Nat) (z : Nat),
    z ∈ (ys.filterMap (fun y => (ptOf ctx row y).map
        (fun q => (⟨y, q⟩ : HistoricalDataPoint)))).map (fun p => p.year) → z ∈ ys := by
  intro ys z h
  rw [List.mem_map] at h
  obtain ⟨p, hp, hz⟩ := h
  rw [List.mem_filterMap] at hp
  obtain ⟨y, hy, hmk⟩ := hp
  cases hq : ptOf ctx row y with
  | none => rw [hq] at hmk; exact absurd hmk (by simp)
  | some q =>
    rw [hq] at hmk
    simp only [Option.map_some', Option.some.injEq] at hmk
    rw [← hz, ← hmk]
    exact hy

/-- Distinct year columns yield data points with distinct years. -/
theorem rowPoints_years_nodup (ctx : Ctx) (row : List Cell) (h : ctx.years.Nodup) :
    ((rowPoints ctx row).map (fun p => p.year)).Nodup := by
  unfold rowPoints
  have haux : ∀ ys : List Nat, ys.Nodup →
      ((ys.filterMap (fun y => (ptOf ctx row y).map
        (fun q => (⟨y, q⟩ : HistoricalDataPoint)))).map (fun p => p.year)).Nodup := by
    intro ys
    induction ys with
    | nil => intro _; simp
    | cons y ys ih =>
      intro hnd
      obtain ⟨hy, hnd2⟩ := List.nodup_cons.mp hnd
      rw [List.filterMap_cons]
      cases hq : ptOf ctx row y with
      | none => exact ih hnd2
      | some q =>
        simp only [Option.map_some']
        rw [List.map_cons, List.nodup_cons]
        refine ⟨?_, ih hnd2⟩
        intro hmem
        exact hy (filterMap_year_mem ctx row ys y hmem)
  exact haux ctx.years h

/-- Membership in a row's valid data points. -/
theorem rowPoints_mem_iff (ctx : Ctx) (row : List Cell) (y : Nat) (q : ℚ) :
    (⟨y, q⟩ : HistoricalDataPoint) ∈ rowPoints ctx row
      ↔ (y ∈ ctx.years ∧ ptOf ctx row y = some q) := by
  unfold rowPoints
  rw [List.mem_filterMap]
  constructor
  · rintro ⟨y2, hy2, hmk⟩
    cases hq : ptOf ctx row y2 with
    | none => rw [hq] at hmk; exact absurd hmk (by simp)
    | some q2 =>
      rw [hq] at hmk
      simp only [Option.map_some', Option.some.injEq, HistoricalDataPoint.mk.injEq] at hmk
      obtain ⟨h1, h2⟩ := hmk
      subst h1
      subst h2
      exact ⟨hy2, hq⟩
  · rintro ⟨hy, hq⟩
    exact ⟨y, hy, by rw [hq]; rfl⟩

/-- Projection of `acceptedCodesOf` through a parsed context. -/
theorem acceptedCodesOf_eq (wb : List (String × List (List Cell))) (c : Ctx)
    (h : ctxOf wb = some c) :
    acceptedCodesOf wb
      = (c.dataRows.filter (fun r => rowAccepted c r)).map (fun r => rowCode c r) := by
  unfold acceptedCodesOf
  rw [dataRowsOf_eq wb c h]
  have h1 : (fun r => rowAcceptedOf wb r) = (fun r => rowAccepted c r) :=
    funext (fun r => rowAcceptedOf_eq wb c h r)
  have h2 : (fun r => rowCodeOf wb r) = (fun r => rowCode c r) :=
    funext (fun r => rowCodeOf_eq wb c h r)
  rw [h1, h2]

/-- C2 (counterexample): with the duplicated code `AAA`, the returned series
is not strictly ascending by year (1991 appears twice) and contains the pair
`(1991, 2)` although `getPPPData` returns factor 3 for `(AAA, 1991)`. -/
theorem getHistoricalPPPData_counterexample :
    (⟨1991, 2⟩ : HistoricalDataPoint) ∈ histOf symNone wbDup "AAA"
    ∧ tableOf symNone wbDup 1991 "AAA" = some 3
    ∧ ¬ (histOf symNone wbDup "AAA").Pairwise (fun a b => a.year < b.year) := by
  refine ⟨by decide, by decide, by decide⟩

/-- C2 (amended): provided the header's year columns are pairwise distinct and
the accepted data rows carry pairwise-distinct country codes, the historical
series of every country code is sorted strictly ascending by year and contains
exactly the pairs `(year, factor)` for which the year-indexed table (hence
`getPPPData`) holds that factor. -/
theorem getHistoricalPPPData_consistent (sym : String → Option String)
    (wb : List (String × List (List Cell))) (hys : (yearsOf wb).Nodup)
    (hcodes : (acceptedCodesOf wb).Nodup) (code : String) :
    (histOf sym wb code).Pairwise (fun a b => a.year < b.year)
    ∧ ∀ (y : Nat) (q : ℚ), ((⟨y, q⟩ : HistoricalDataPoint) ∈ histOf sym wb code
        ↔ tableOf sym wb y code = some q) := by
  cases hctx : ctxOf wb with
  | none =>
    obtain ⟨ht, hh, _, _, _⟩ := projections_of_ctx_none sym wb hctx
    rw [hh code]
    refine ⟨by simp, ?_⟩
    intro y q
    rw [ht y code]
    simp
  | some c =>
    rw [yearsOf_eq wb c hctx] at hys
    have hcodes2 : ((c.dataRows.filter (fun r => rowAccepted c r)).map
        (fun r => rowCode c r)).Nodup := by
      rwa [acceptedCodesOf_eq wb c hctx] at hcodes
    have hchar := foldRows_char sym c hys code c.dataRows initAcc accWf_init rfl (fun _ => rfl)
    rw [histOf_eq sym wb c hctx code]
    have htab : ∀ y, tableOf sym wb y code = (runRows sym c).ppp y code :=
      fun y => tableOf_eq sym wb c hctx y code
    rcases hits_filter_short c c.dataRows hcodes2 code with hcase | ⟨r, hcase⟩
    · obtain ⟨hhist, hppp⟩ := hchar.1 hcase
      have hru : (runRows sym c).hist code = none := hhist
      rw [hru]
      refine ⟨by simp, ?_⟩
      intro y q
      have hpy : (runRows sym c).ppp y code = none := hppp y
      rw [htab y, hpy]
      simp
    · obtain ⟨hhist, hppp⟩ := hchar.2 r hcase
      have hru : (runRows sym c).hist code = some (sortByYear (rowPoints c r)) := hhist
      rw [hru]
      constructor
      · have hle := sortByYear_pairwise (rowPoints c r)
        have hnody : ((sortByYear (rowPoints c r)).map (fun p => p.year)).Nodup := by
          have hperm := (sortByYear_perm (rowPoints c r)).map (fun p => p.year)
          exact hperm.nodup_iff.mpr (rowPoints_years_nodup c r hys)
        have hne : (sortByYear (rowPoints c r)).Pairwise (fun a b => a.year ≠ b.year) :=
          List.pairwise_map.mp hnody
        have hcomb := hle.and hne
        exact hcomb.imp (fun hab => lt_of_le_of_ne hab.1 hab.2)
      · intro y q
        have hpy : (runRows sym c).ppp y code = rowTable c r y := hppp y
        rw [htab y, hpy]
        constructor
        · intro hmem
          have hmem2 : (⟨y, q⟩ : HistoricalDataPoint) ∈ rowPoints c r :=
            (sortByYear_perm _).mem_iff.mp hmem
          obtain ⟨hy, hq⟩ := (rowPoints_mem_iff c r y q).mp hmem2
          unfold rowTable
          rw [if_pos hy]
          exact hq
        · intro htb
          unfold rowTable at htb
          split at htb
          · rename_i hy
            exact (sortByYear_perm _).mem_iff.mpr ((rowPoints_mem_iff c r y q).mpr ⟨hy, htb⟩)
          · exact absurd htb (by simp)

/-- C2 witness: the worked example satisfies both side conditions, its `TST`
series is strictly ascending, and `(1991, 50)` is in the series exactly as it
is in the table. -/
theorem getHistoricalPPPData_consistent_witness :
    (histOf symNone wbEx "TST").Pairwise (fun a b => a.year < b.year)
    ∧ ((⟨1991, 50⟩ : HistoricalDataPoint) ∈ histOf symNone wbEx "TST"
        ↔ tableOf symNone wbEx 1991 "TST" = some 50) := by
  have h := getHistoricalPPPData_consistent symNone wbEx (by decide) (by decide) "TST"
  exact ⟨h.1, h.2 1991 50⟩

/-- Unpacking an empty service state. -/
theorem isEmptySrv_elim (s : SrvState) (h : isEmptySrv s = true) :
    s.pppDataCache = none ∧ s.historicalDataCache = none ∧ s.countriesCache = none
    ∧ s.cachedLatestYear = none ∧ s.dataLastUpdatedTimestamp = none
    ∧ s.isFetchingData = false ∧ s.fetchPromise = none := by
  unfold isEmptySrv at h
  simp only [Bool.and_eq_true, Option.isNone_iff_eq_none, Bool.not_eq_true'] at h
  exact ⟨h.1.1.1.1.1.1, h.1.1.1.1.1.2, h.1.1.1.1.2, h.1.1.1.2, h.1.1.2, h.1.2, h.2⟩

/-- The failure path leaves the module in the `Empty` state. -/
theorem isEmptySrv_resetOnError (s : SrvState) : isEmptySrv (resetOnError s) = true := rfl

/-- On an empty state, the entry section starts a fresh fetch: the caller
receives a new promise, the fetch counter advances, the in-flight flag and
promise are installed, and no sub-cache changes. -/
theorem fetchEntry_of_empty (s : SrvState) (h : isEmptySrv s = true) :
    (fetchEntry s).2 = .started s.nextPromiseId
    ∧ (fetchEntry s).1.fetchCount = s.fetchCount + 1
    ∧ (fetchEntry s).1.isFetchingData = true
    ∧ (fetchEntry s).1.fetchPromise = some s.nextPromiseId
    ∧ (fetchEntry s).1.pppDataCache = s.pppDataCache
    ∧ (fetchEntry s).1.historicalDataCache = s.historicalDataCache
    ∧ (fetchEntry s).1.countriesCache = s.countriesCache
    ∧ (fetchEntry s).1.cachedLatestYear = s.cachedLatestYear
    ∧ (fetchEntry s).1.dataLastUpdatedTimestamp = s.dataLastUpdatedTimestamp := by
  obtain ⟨h1, _, _, _, _, h6, _⟩ := isEmptySrv_elim s h
  unfold fetchEntry
  rw [if_neg (by unfold allCachedS; rw [h1]; simp)]
  rw [if_neg (by rw [h6]; simp)]
  exact ⟨rfl, rfl, rfl, rfl, rfl, rfl, rfl, rfl, rfl⟩

/-- A caller that joins an in-flight fetch leaves the state unchanged and
receives the shared promise. -/
theorem fetchEntry_joined (s : SrvState) (id : Nat) (hnc : allCachedS s = false)
    (hf : s.isFetchingData = true) (hp : s.fetchPromise = some id) :
    fetchEntry s = (s, .joined id) := by
  unfold fetchEntry
  rw [if_neg (by rw [hnc]; simp)]
  rw [if_pos (by rw [hf, hp]; rfl)]
  rw [hp]
  rfl

/-- One unfolding step of `entryIter`. -/
theorem entryIter_succ (n : Nat) (s : SrvState) :
    entryIter (n + 1) s
      = ((entryIter n (fetchEntry s).1).1, (fetchEntry s).2 :: (entryIter n (fetchEntry s).1).2) := by
  cases hE : fetchEntry s with
  | mk s1 r =>
    cases hI : entryIter n s1 with
    | mk s2 rs =>
      show (match fetchEntry s with
        | (s1, r) =>
          match entryIter n s1 with
          | (s2, rs) => (s2, r :: rs)) = _
      rw [hE]
      simp [hI]

/-- Iterating the entry section on a state that every caller joins. -/
theorem entryIter_joined (id : Nat) :
    ∀ (n : Nat) (s : SrvState), fetchEntry s = (s, .joined id) →
    entryIter n s = (s, List.replicate n (.joined id)) := by
  intro n
  induction n with
  | zero => intro s _; rfl
  | succ n ih =>
    intro s h
    rw [entryIter_succ, h]
    simp [ih s h, List.replicate_succ]

/-- C4: while the cache state is `Empty`, any number `n + 1` of callers of
`fetchAndCachePPPData` whose entry sections run before the download resolves
produce exactly one fetch start - the fetch counter advances by one - and
every caller holds the same promise (the first is `started`, all the others
`joined` with the same id), so every caller observes the same outcome when
that one promise settles. -/
theorem fetch_single_flight (s : SrvState) (h : isEmptySrv s = true) (n : Nat) :
    (entryIter (n + 1) s).2
      = .started s.nextPromiseId :: List.replicate n (.joined s.nextPromiseId)
    ∧ (entryIter (n + 1) s).1.fetchCount = s.fetchCount + 1 := by
  obtain ⟨h1, _, _, _, _, _, _⟩ := isEmptySrv_elim s h
  obtain ⟨hsnd, hcount, hflag, hprom, hppp, _, _, _, _⟩ := fetchEntry_of_empty s h
  have hnc1 : allCachedS (fetchEntry s).1 = false := by
    unfold allCachedS
    rw [hppp, h1]
    simp
  have hJ : fetchEntry (fetchEntry s).1 = ((fetchEntry s).1, .joined s.nextPromiseId) :=
    fetchEntry_joined (fetchEntry s).1 s.nextPromiseId hnc1 hflag hprom
  have hiter := entryIter_joined s.nextPromiseId n (fetchEntry s).1 hJ
  rw [entryIter_succ, hiter]
  exact ⟨by rw [hsnd], hcount⟩

/-- C4 witness: three concurrent callers on the pristine module state - one
fetch started, two joins of promise 0, fetch counter 1. -/
theorem fetch_single_flight_witness :
    (entryIter 3 initState).2 = [.started 0, .joined 0, .joined 0]
    ∧ (entryIter 3 initState).1.fetchCount = 1 := by
  have h := fetch_single_flight initState (by decide) 2
  constructor
  · rw [h.1]
    decide
  · rw [h.2]
    rfl

/-- The entry section never changes the data sub-caches. -/
theorem fetchEntry_caches (s : SrvState) :
    (fetchEntry s).1.pppDataCache = s.pppDataCache
    ∧ (fetchEntry s).1.historicalDataCache = s.historicalDataCache
    ∧ (fetchEntry s).1.countriesCache = s.countriesCache
    ∧ (fetchEntry s).1.cachedLatestYear = s.cachedLatestYear
    ∧ (fetchEntry s).1.dataLastUpdatedTimestamp = s.dataLastUpdatedTimestamp := by
  unfold fetchEntry
  split
  · exact ⟨rfl, rfl, rfl, rfl, rfl⟩
  · split
    · exact ⟨rfl, rfl, rfl, rfl, rfl⟩
    · exact ⟨rfl, rfl, rfl, rfl, rfl⟩

/-- A cached entry leaves the state untouched. -/
theorem fetchEntry_cached_state (s : SrvState) (h : (fetchEntry s).2 = .cached) :
    (fetchEntry s).1 = s := by
  by_cases hc : allCachedS s = true
  · unfold fetchEntry
    rw [if_pos hc]
  · by_cases hb : (s.isFetchingData && s.fetchPromise.isSome) = true
    · unfold fetchEntry
      rw [if_neg hc, if_pos hb]
    · unfold fetchEntry at h
      rw [if_neg hc, if_neg hb] at h
      simp at h

/-- A non-cached call whose attempt fails ends in the reset state and sees
the rejection. -/
theorem fetchFail_eq (s : SrvState) (fb : String) (h : allCachedS s = false) :
    fetchAndCachePPPData s (.error ()) fb = (resetOnError (fetchEntry s).1, .error ()) := by
  have hnc : (fetchEntry s).2 ≠ EntryResult.cached := by
    by_cases hb : (s.isFetchingData && s.fetchPromise.isSome) = true
    · unfold fetchEntry
      rw [if_neg (by rw [h]; simp), if_pos hb]
      simp
    · unfold fetchEntry
      rw [if_neg (by rw [h]; simp), if_neg hb]
      simp
  unfold fetchAndCachePPPData
  cases hE : fetchEntry s with
  | mk s1 r =>
    rw [hE] at hnc
    cases r with
    | cached => exact absurd rfl hnc
    | joined id => rfl
    | started id => rfl

/-- C3: when a population attempt fails at any stage, all sub-caches and the
stored promise are cleared and the fetching flag drops - the module returns
to the `Empty` state - the rejection is what every waiter of that attempt
observes, a subsequent call starts a fresh fetch, and each query operation
catches the failure and returns its empty/none default instead of
re-raising. -/
theorem failure_resets_and_degrades (s : SrvState) (fb : String)
    (h : allCachedS s = false) :
    isEmptySrv (fetchAndCachePPPData s (.error ()) fb).1 = true
    ∧ (fetchAndCachePPPData s (.error ()) fb).2 = .error ()
    ∧ (fetchEntry (fetchAndCachePPPData s (.error ()) fb).1).2
        = .started (fetchAndCachePPPData s (.error ()) fb).1.nextPromiseId
    ∧ (s.countriesCache = none → (getCountries s (.error ()) fb).1 = [])
    ∧ (s.cachedLatestYear = none → s.pppDataCache = none →
        (getLatestAvailableYear s (.error ()) fb).1 = none)
    ∧ (s.dataLastUpdatedTimestamp = none → s.pppDataCache = none →
        (getDataLastUpdatedTimestamp s (.error ()) fb).1 = none)
    ∧ (s.pppDataCache = none →
        ∀ (code : String) (y : Nat), (getPPPData s (.error ()) fb code y).1 = none)
    ∧ (s.historicalDataCache = none →
        ∀ code : String, (getHistoricalPPPData s (.error ()) fb code).1 = []) := by
  have hF := fetchFail_eq s fb h
  refine ⟨?_, ?_, ?_, ?_, ?_, ?_, ?_, ?_⟩
  · rw [hF]
    exact isEmptySrv_resetOnError _
  · rw [hF]
  · rw [hF]
    exact (fetchEntry_of_empty _ (isEmptySrv_resetOnError _)).1
  · intro hc
    unfold getCountries
    rw [hc, hF]
  · intro hl hp
    unfold getLatestAvailableYear
    rw [if_pos (by rw [hl, hp]; rfl)]
    rw [hF]
  · intro ht hp
    unfold getDataLastUpdatedTimestamp
    rw [if_pos (by rw [ht, hp]; rfl)]
    rw [hF]
  · intro hp code y
    unfold getPPPData
    rw [hp, hF]
  · intro hh code
    unfold getHistoricalPPPData
    rw [hh, hF]

/-- C3 witness: a failing first population on the pristine state empties the
module and every query returns its default. -/
theorem failure_resets_and_degrades_witness :
    isEmptySrv (fetchAndCachePPPData initState (.error ()) "today").1 = true
    ∧ (getCountries initState (.error ()) "today").1 = []
    ∧ (getLatestAvailableYear initState (.error ()) "today").1 = none
    ∧ (getDataLastUpdatedTimestamp initState (.error ()) "today").1 = none
    ∧ (getPPPData initState (.error ()) "today" "USA" 2000).1 = none
    ∧ (getHistoricalPPPData initState (.error ()) "today" "USA").1 = [] := by
  have h := failure_resets_and_degrades initState "today" (by decide)
  exact ⟨h.1, h.2.2.2.1 rfl, h.2.2.2.2.1 rfl rfl, h.2.2.2.2.2.1 rfl rfl,
    h.2.2.2.2.2.2.1 rfl "USA" 2000, h.2.2.2.2.2.2.2 rfl "USA"⟩

/-- C9: along any sequence of completed population attempts from module load,
the three data sub-caches are assigned and cleared together: at every
quiescent point either all three are present or all three are absent, and no
fetch is marked in flight. -/
theorem subcaches_all_or_none (outs : List (Except Unit ParseOutput × String)) :
    ((runAttempts initState outs).pppDataCache.isSome
        = (runAttempts initState outs).historicalDataCache.isSome)
    ∧ ((runAttempts initState outs).pppDataCache.isSome
        = (runAttempts initState outs).countriesCache.isSome)
    ∧ (runAttempts initState outs).isFetchingData = false := by
  have hstep : ∀ (s : SrvState) (out : Except Unit ParseOutput) (fb : String),
      (s.pppDataCache.isSome = s.historicalDataCache.isSome
        ∧ s.pppDataCache.isSome = s.countriesCache.isSome
        ∧ s.isFetchingData = false) →
      ((fetchAndCachePPPData s out fb).1.pppDataCache.isSome
          = (fetchAndCachePPPData s out fb).1.historicalDataCache.isSome
        ∧ (fetchAndCachePPPData s out fb).1.pppDataCache.isSome
          = (fetchAndCachePPPData s out fb).1.countriesCache.isSome
        ∧ (fetchAndCachePPPData s out fb).1.isFetchingData = false) := by
    intro s out fb hinv
    unfold fetchAndCachePPPData
    cases hE : fetchEntry s with
    | mk s1 r =>
      cases r with
      | cached =>
        have hs1 : s1 = s := by
          have h2 := fetchEntry_cached_state s (by rw [hE])
          rw [hE] at h2
          exact h2
        rw [hs1]
        exact hinv
      | joined id =>
        cases out with
        | ok p => exact ⟨rfl, rfl, rfl⟩
        | error e => exact ⟨rfl, rfl, rfl⟩
      | started id =>
        cases out with
        | ok p => exact ⟨rfl, rfl, rfl⟩
        | error e => exact ⟨rfl, rfl, rfl⟩
  have haux : ∀ (outs : List (Except Unit ParseOutput × String)) (s : SrvState),
      (s.pppDataCache.isSome = s.historicalDataCache.isSome
        ∧ s.pppDataCache.isSome = s.countriesCache.isSome
        ∧ s.isFetchingData = false) →
      ((runAttempts s outs).pppDataCache.isSome
          = (runAttempts s outs).historicalDataCache.isSome
        ∧ (runAttempts s outs).pppDataCache.isSome
          = (runAttempts s outs).countriesCache.isSome
        ∧ (runAttempts s outs).isFetchingData = false) := by
    intro outs
    induction outs with
    | nil => intro s hinv; exact hinv
    | cons ofb rest ih =>
      intro s hinv
      exact ih _ (hstep s ofb.1 ofb.2 hinv)
  exact haux outs initState ⟨rfl, rfl, rfl⟩

/-- Unpacking a populated state. -/
theorem populatedS_elim (s : SrvState) (h : populatedS s = true) :
    s.pppDataCache.isSome = true ∧ s.historicalDataCache.isSome = true
    ∧ s.countriesCache.isSome = true ∧ s.dataLastUpdatedTimestamp.isSome = true := by
  unfold populatedS at h
  simp only [Bool.and_eq_true] at h
  exact ⟨h.1.1.1, h.1.1.2, h.1.2, h.2⟩

/-- A cached entry result implies the full-cache test held. -/
theorem fetchEntry_cached_allCached (s : SrvState) (h : (fetchEntry s).2 = .cached) :
    allCachedS s = true := by
  by_cases hc : allCachedS s = true
  · exact hc
  · exfalso
    by_cases hb : (s.isFetchingData && s.fetchPromise.isSome) = true
    · unfold fetchEntry at h
      rw [if_neg hc, if_pos hb] at h
      simp at h
    · unfold fetchEntry at h
      rw [if_neg hc, if_neg hb] at h
      simp at h

/-- The full-cache test implies the populated predicate. -/
theorem allCachedS_populated (s : SrvState) (h : allCachedS s = true) :
    populatedS s = true := by
  unfold allCachedS at h
  simp only [Bool.and_eq_true] at h
  unfold populatedS
  rw [h.1.1.1.1, h.1.1.1.2, h.1.2, h.2]
  rfl

/-- A non-cached call whose attempt succeeds commits the parse output. -/
theorem fetchOk_eq (s : SrvState) (p : ParseOutput) (fb : String)
    (h : allCachedS s = false) :
    fetchAndCachePPPData s (.ok p) fb = (commit p fb (fetchEntry s).1, .ok ()) := by
  have hnc : (fetchEntry s).2 ≠ EntryResult.cached := by
    by_cases hb : (s.isFetchingData && s.fetchPromise.isSome) = true
    · unfold fetchEntry
      rw [if_neg (by rw [h]; simp), if_pos hb]
      simp
    · unfold fetchEntry
      rw [if_neg (by rw [h]; simp), if_neg hb]
      simp
  unfold fetchAndCachePPPData
  cases hE : fetchEntry s with
  | mk s1 r =>
    rw [hE] at hnc
    cases r with
    | cached => exact absurd rfl hnc
    | joined id => rfl
    | started id => rfl

/-- C10: every successful population leaves the timestamp sub-cache non-null
(when the sheet had no `Last Updated Date` row, the committed value is the
fallback string built from the fetch start time); populated states are fixed
points of all five query operations, and on them
`getDataLastUpdatedTimestamp` returns a non-null string - so it returns
`none` only when no population has ever succeeded. -/
theorem timestamp_after_success (s : SrvState) (p : ParseOutput) (fb : String) :
    populatedS (fetchAndCachePPPData s (.ok p) fb).1 = true
    ∧ (fetchAndCachePPPData s (.ok p) fb).1.dataLastUpdatedTimestamp.isSome = true
    ∧ (allCachedS s = false → p.timestamp = none →
        (fetchAndCachePPPData s (.ok p) fb).1.dataLastUpdatedTimestamp = some fb)
    ∧ (∀ s2 : SrvState, populatedS s2 = true →
        ∀ (out : Except Unit ParseOutput) (fb2 : String) (op : QueryOp),
          applyOp s2 out fb2 op = s2)
    ∧ (∀ s2 : SrvState, populatedS s2 = true →
        ∀ (out : Except Unit ParseOutput) (fb2 : String),
          (getDataLastUpdatedTimestamp s2 out fb2).1.isSome = true) := by
  have hpop : populatedS (fetchAndCachePPPData s (.ok p) fb).1 = true := by
    by_cases hc : allCachedS s = true
    · have hE : fetchAndCachePPPData s (.ok p) fb = (s, .ok ()) := by
        unfold fetchAndCachePPPData fetchEntry
        rw [if_pos hc]
      rw [hE]
      exact allCachedS_populated s hc
    · rw [fetchOk_eq s p fb (by rw [Bool.not_eq_true] at hc; exact hc)]
      rfl
  have hfix : ∀ s2 : SrvState, populatedS s2 = true →
      ∀ (out : Except Unit ParseOutput) (fb2 : String) (op : QueryOp),
        applyOp s2 out fb2 op = s2 := by
    intro s2 hp2 out fb2 op
    obtain ⟨hppp, hhist, hcoun, hts⟩ := populatedS_elim s2 hp2
    cases op with
    | countriesQ =>
      obtain ⟨cl, hcl⟩ := Option.isSome_iff_exists.mp hcoun
      show (getCountries s2 out fb2).2 = s2
      unfold getCountries
      rw [hcl]
    | latestYearQ =>
      show (getLatestAvailableYear s2 out fb2).2 = s2
      unfold getLatestAvailableYear
      rw [if_neg (by
        intro hcond
        rw [Bool.and_eq_true] at hcond
        have h3 := hcond.2
        rw [Option.isNone_iff_eq_none] at h3
        rw [h3] at hppp
        simp at hppp)]
    | timestampQ =>
      show (getDataLastUpdatedTimestamp s2 out fb2).2 = s2
      unfold getDataLastUpdatedTimestamp
      rw [if_neg (by
        intro hcond
        rw [Bool.and_eq_true] at hcond
        have h3 := hcond.1
        rw [Option.isNone_iff_eq_none] at h3
        rw [h3] at hts
        simp at hts)]
    | factorQ code year =>
      obtain ⟨t, ht⟩ := Option.isSome_iff_exists.mp hppp
      show (getPPPData s2 out fb2 code year).2 = s2
      unfold getPPPData
      rw [ht]
    | historicalQ code =>
      obtain ⟨hh, hhh⟩ := Option.isSome_iff_exists.mp hhist
      show (getHistoricalPPPData s2 out fb2 code).2 = s2
      unfold getHistoricalPPPData
      rw [hhh]
  refine ⟨hpop, (populatedS_elim _ hpop).2.2.2, ?_, hfix, ?_⟩
  · intro hnc hts
    rw [fetchOk_eq s p fb hnc]
    show some (jsOrElse p.timestamp fb) = some fb
    rw [hts]
    rfl
  · intro s2 hp2 out fb2
    obtain ⟨_, _, _, hts⟩ := populatedS_elim s2 hp2
    unfold getDataLastUpdatedTimestamp
    rw [if_neg (by
      intro hcond
      rw [Bool.and_eq_true] at hcond
      have h3 := hcond.1
      rw [Option.isNone_iff_eq_none] at h3
      rw [h3] at hts
      simp at hts)]
    exact hts

/-- C10 witness: committing a parse output with no timestamp row over the
pristine state stores exactly the fallback string, and the timestamp query on
the resulting state returns a non-null value. -/
theorem timestamp_after_success_witness :
    (fetchAndCachePPPData initState (.ok pEx) "fetched 5/2/2025").1.dataLastUpdatedTimestamp
      = some "fetched 5/2/2025"
    ∧ (getDataLastUpdatedTimestamp (fetchAndCachePPPData initState (.ok pEx)
        "fetched 5/2/2025").1 (.error ()) "x").1.isSome = true := by
  have h := timestamp_after_success initState pEx "fetched 5/2/2025"
  exact ⟨h.2.2.1 rfl rfl, h.2.2.2.2 _ h.1 (.error ()) "x"⟩
